import Mathlib

/-!
Shallow embedding of the `lox` tree-walking interpreter (repository
`crafting_interpreters`, directory `src/lox/src`) and proofs about it.

Modelling conventions:
* Rust `f64` numbers are modelled as `ℚ`.  Every numeric computation any
  theorem below touches is exact in both models (small integers and simple
  fractions); IEEE-754 rounding, NaN and ±∞ are outside the scope of the
  claims settled here, and the `Display` form of a number is modelled
  exactly only for integral values (the only ones the theorems display).
* `Rc<RefCell<Environment>>` sharing is modelled with an explicit store
  (`List Scope`) addressed by allocation index; `Rc::new` becomes an
  append to the store and cloning an `Rc` becomes copying the index.
* Fallible or partial behaviour is explicit: Rust panics become `none` /
  a `panicked` constructor, and unbounded loops / recursion are given a
  fuel parameter (running out of fuel is `none` / a `fuelOut` constructor,
  distinct from every behaviour of the Rust code).
* The repository snapshot is mid-refactor: `parser.rs`, `token.rs`,
  `value.rs`, `callable.rs`, `error.rs` and `environment.rs` form the
  current generation, while the checked-in `statement.rs`, `expression.rs`
  and `evaluation.rs` lag behind them (for example `parser.rs` builds
  `Statement::Return` and `Expression::Call` nodes that the stale AST
  files lack, and `value.rs` uses a `ReturnOrError` channel that the stale
  `evaluation.rs` lacks).  The embedding follows the current generation;
  the few arms that exist in no checked-in file are modelled from the
  spec and carry a doc comment saying so.
-/

namespace Lox

/-- Position from position.rs: a byte span `[absolute, absolute+length)`
over the original source. -/
structure Position where
  absolute : Nat
  length : Nat
deriving DecidableEq, Repr

/-- Position::new. -/
def Position.new (absolute length : Nat) : Position := ⟨absolute, length⟩

/-- Position::end_position. -/
def Position.end_position (p : Position) : Nat := p.absolute + p.length

/-- Position::union from position.rs; the Rust method mutates `self`, the
model returns the updated value. -/
def Position.union (p other : Position) : Position :=
  let start := min p.absolute other.absolute
  let stop := max p.end_position other.end_position
  ⟨start, stop - start⟩

/-- TokenType from token.rs (the current-generation token type consumed by
parser.rs).  Number payloads are modelled as `ℚ`. -/
inductive TokenType where
  | LeftParent | RightParent | LeftBrace | RightBrace | Comma | Dot
  | Minus | Plus | Semicolon | Slash | Star
  | Bang | BangEqual | Equal | EqualEqual
  | Greater | GreaterEqual | Less | LessEqual
  | Identifier (value : String)
  | StringToken (value : String)
  | Number (value : ℚ)
  | And | Class | Else | False | Fun | For | If | Nil | Or | Print
  | Return | Super | This | True | Var | While
  | Eof
deriving DecidableEq, Repr

/-- Display impl for TokenType in token.rs (writes "" for most variants). -/
def TokenType.display : TokenType → String
  | .Plus => "+"
  | .Star => "*"
  | .LeftParent => "("
  | .RightParent => ")"
  | .Semicolon => ";"
  | .Eof => "EOF"
  | _ => ""

/-- Token from token.rs. -/
structure Token where
  token_type : TokenType
  position : Position
deriving DecidableEq, Repr

/-- LiteralType from expression.rs. -/
inductive LiteralType where
  | NumberLit (value : ℚ)
  | StringLit (value : String)
  | TrueLit
  | FalseLit
  | NilLit
deriving DecidableEq, Repr

/-- BinaryOp from expression.rs. -/
inductive BinaryOp where
  | Equals | NotEquals
  | LessThan | LessThanOrEquals | GreaterThan | GreaterThanOrEquals
  | Add | Subtract | Multiply | Divide
deriving DecidableEq, Repr

/-- LogicalOp from expression.rs. -/
inductive LogicalOp where
  | And
  | Or
deriving DecidableEq, Repr

/-- UnaryOp from expression.rs. -/
inductive UnaryOp where
  | Not
  | Negative
deriving DecidableEq, Repr

mutual

/-- Expression from expression.rs together with the `Call` variant that
parser.rs and evaluation.rs construct and consume (the checked-in
expression.rs predates it). -/
inductive Expression where
  | Unary (inner : ExpressionNode) (op : UnaryOp)
  | Binary (left : ExpressionNode) (right : ExpressionNode) (op : BinaryOp)
  | Logical (left : ExpressionNode) (right : ExpressionNode) (op : LogicalOp)
  | Literal (lit : LiteralType)
  | Grouping (inner : ExpressionNode)
  | Variable (name : String)
  | Assignment (name : String) (value : ExpressionNode)
  | Call (callee : ExpressionNode) (arguments : List ExpressionNode)

/-- ExpressionNode from expression.rs: an expression with its source span. -/
inductive ExpressionNode where
  | mk (expression : Expression) (position : Position)

end

/-- Accessor matching the Rust field `ExpressionNode.expression`. -/
def ExpressionNode.expression : ExpressionNode → Expression
  | .mk e _ => e

/-- Accessor matching the Rust field `ExpressionNode.position`. -/
def ExpressionNode.position : ExpressionNode → Position
  | .mk _ p => p

/-- ExpressionNode::new (takes the position by reference in Rust). -/
def ExpressionNode.new (expression : Expression) (position : Position) : ExpressionNode :=
  .mk expression position

/-- ExpressionNode::raw as used by parser.rs (same as `new` but the
position is passed by value). -/
def ExpressionNode.raw (expression : Expression) (position : Position) : ExpressionNode :=
  .mk expression position

/-- Statement from statement.rs together with the `Return` variant that
parser.rs constructs (the checked-in statement.rs predates it).  The
`Rc`-shared body of a `Function` is plain data here; sharing is
irrelevant for immutable values. -/
inductive Statement where
  | Print (expr : ExpressionNode)
  | Expression (expr : ExpressionNode)
  | Var (name : String) (initializer : Option ExpressionNode)
  | Block (statements : List Statement)
  | If (condition : ExpressionNode) (then_branch : Statement)
      (else_branch : Option Statement)
  | While (condition : ExpressionNode) (body : Statement)
  | Function (name : String) (parameters : List String) (body : Statement)
  | Return (expr : Option ExpressionNode)

/-- FunctionContainer from callable.rs: the closure field holds the store
index of the environment captured at the definition site. -/
structure FunctionContainer where
  id : String
  parameters : List String
  body : Statement
  closure : Nat

/-- Value from value.rs. -/
inductive Value where
  | Nil
  | Boolean (b : Bool)
  | Number (n : ℚ)
  | Str (s : String)
  | Function (f : FunctionContainer)

/-- Display for a number: Rust's `{}` on `f64` prints `3` for `3.0`.
The model is exact for integral values (the only numbers the verified
scenarios display); non-integral values are rendered as a fraction. -/
def displayRat (q : ℚ) : String :=
  if q.den = 1 then toString q.num else toString q.num ++ "/" ++ toString q.den

/-- Display impl for Value in value.rs. -/
def Value.display : Value → String
  | .Nil => "Nil"
  | .Boolean b => toString b
  | .Number n => displayRat n
  | .Str s => s
  | .Function f => "fun " ++ f.id

/-- Debug impl for Value in value.rs (used for `TypeError.found`). -/
def Value.debug : Value → String
  | .Nil => "Nil"
  | .Boolean b => toString b ++ ":Boolean"
  | .Number n => displayRat n ++ ":Number"
  | .Str s => s ++ ":String"
  | .Function f => "fun " ++ f.id

/-- Derived PartialEq for Value: same-variant structural comparison,
except functions, whose hand-written PartialEq compares ids only. -/
def Value.beq : Value → Value → Bool
  | .Nil, .Nil => true
  | .Boolean a, .Boolean b => a == b
  | .Number a, .Number b => a == b
  | .Str a, .Str b => a == b
  | .Function f, .Function g => f.id == g.id
  | _, _ => false

/-- ValueNode from value.rs: a value with the span it was produced at. -/
structure ValueNode where
  value : Value
  position : Position

/-- ValueNode::new. -/
def ValueNode.new (value : Value) (position : Position) : ValueNode :=
  ⟨value, position⟩

/-- Derived PartialEq for ValueNode compares the value and the position
field (value.rs derives PartialEq for the whole struct). -/
def ValueNode.beq (a b : ValueNode) : Bool :=
  Value.beq a.value b.value && a.position == b.position

/-- RuntimeError from error.rs.  Note the checked-in error.rs has no
ArityMismatch variant. -/
inductive RuntimeError where
  | TypeError (found expected : String) (position : Position)
  | UninitializedVariable (variableName : String) (position : Position)
  | UnknownIdentifier (variableName : String) (position : Position)

/-- ParseError from error.rs. -/
inductive ParseError where
  | IllegalToken (found : String) (position : Position)
  | UnexpectedToken (found expected : String) (position : Position)
  | UnclosedDelimiter (start_position end_position : Position)
  | UnexpectedEndOfTokenStream
  | InvalidAssignmentTarget (position : Position)

/-- LoxError from error.rs. -/
inductive LoxError where
  | RuntimeError (e : Lox.RuntimeError)
  | ParseError (e : Lox.ParseError)

/-- RuntimeError::type_error. -/
def RuntimeError.type_error (found : ValueNode) (expected : String) : LoxError :=
  .RuntimeError (.TypeError found.value.debug expected found.position)

/-- RuntimeError::uninitialized_variable. -/
def RuntimeError.uninitialized_variable (variableName : String) (position : Position) : LoxError :=
  .RuntimeError (.UninitializedVariable variableName position)

/-- RuntimeError::unknown_identifier. -/
def RuntimeError.unknown_identifier (variableName : String) (position : Position) : LoxError :=
  .RuntimeError (.UnknownIdentifier variableName position)

/-- ParseError::illegal_token. -/
def ParseError.illegal_token (found : Token) : LoxError :=
  .ParseError (.IllegalToken found.token_type.display found.position)

/-- ParseError::unexpected_token. -/
def ParseError.unexpected_token (found : Token) (expected : String) : LoxError :=
  .ParseError (.UnexpectedToken found.token_type.display expected found.position)

/-- ParseError::unexpected_token_raw. -/
def ParseError.unexpected_token_raw (found expected : TokenType) (position : Position) : LoxError :=
  .ParseError (.UnexpectedToken found.display expected.display position)

/-- ParseError::unexpected_end_of_stream. -/
def ParseError.unexpected_end_of_stream : LoxError :=
  .ParseError .UnexpectedEndOfTokenStream

/-- ParseError::unclosed_delimiter. -/
def ParseError.unclosed_delimiter (start_position end_position : Position) : LoxError :=
  .ParseError (.UnclosedDelimiter start_position end_position)

/-- ParseError::invalid_assignment_target. -/
def ParseError.invalid_assignment_target (position : Position) : LoxError :=
  .ParseError (.InvalidAssignmentTarget position)

/-- ReturnOrError: the evaluator's result channel.  The checked-in
evaluation.rs predates it, but value.rs pattern-matches its two
constructors `Error` and `Return` (a `LoxError` or a `return` signal). -/
inductive ReturnOrError where
  | Error (e : LoxError)
  | Return (value : Value)

/-- EvaluationResult as in evaluation.rs, over the ReturnOrError channel
that value.rs uses. -/
abbrev EvaluationResult (α : Type) := Except ReturnOrError α

/-- One scope of the environment chain (environment.rs `Environment`):
an optional parent (a store index models the `Rc` link) and the
name-to-optional-value map, the Rust field `variables` (a Lean keyword,
so named `vars` here; the `HashMap` is modelled as an association list:
absent key = undeclared, `none` payload = declared-uninitialised). -/
structure Scope where
  parent : Option Nat
  vars : List (String × Option Value)

/-- Lookup in one scope's map (`HashMap::get` composed with `cloned`). -/
def varsGet : List (String × Option Value) → String → Option (Option Value)
  | [], _ => none
  | (k, v) :: rest, key => if k == key then some v else varsGet rest key

/-- HashMap::contains_key on one scope's map. -/
def varsContains (vars : List (String × Option Value)) (key : String) : Bool :=
  (varsGet vars key).isSome

/-- HashMap::insert on one scope's map: replace the binding if the key is
present, otherwise add it. -/
def varsInsert : List (String × Option Value) → String → Option Value → List (String × Option Value)
  | [], key, v => [(key, v)]
  | (k, w) :: rest, key, v =>
    if k == key then (key, v) :: rest else (k, w) :: varsInsert rest key v

/-- Replace the element at an index of a list (identity when out of range);
used to write one scope of the store back. -/
def listModify : List α → Nat → (α → α) → List α
  | [], _, _ => []
  | x :: xs, 0, f => f x :: xs
  | x :: xs, n + 1, f => x :: listModify xs n f

/-- Environment::empty from environment.rs (the scope value; it enters the
store when allocated). -/
def Environment.empty : Scope := ⟨none, []⟩

/-- Environment::wrap from environment.rs: a fresh scope whose parent link
is the given store index. -/
def Environment.wrap (parent : Nat) : Scope := ⟨some parent, []⟩

/-- Environment::register on a scope value. -/
def Scope.register (s : Scope) (key : String) (value : Option Value) : Scope :=
  { s with vars := varsInsert s.vars key value }

/-- Rc::new(RefCell::new(env)): allocate a scope in the store, returning
the new store and the scope's index. -/
def alloc (σ : List Scope) (s : Scope) : List Scope × Nat :=
  (σ ++ [s], σ.length)

/-- Environment::register applied through the store at index `id`. -/
def Environment.register (σ : List Scope) (id : Nat) (key : String) (value : Option Value) : List Scope :=
  listModify σ id (fun s => s.register key value)

/-- Environment::get from environment.rs: look in the current scope's map,
else delegate to the parent.  The fuel bounds the parent-chain walk (the
Rust recursion has no bound; every store the evaluator builds has
strictly decreasing parent links, so `σ.length` fuel always suffices). -/
def Environment.getAux (σ : List Scope) : Nat → Nat → String → Option (Option Value)
  | 0, _, _ => none
  | fuel + 1, id, key =>
    match σ[id]? with
    | none => none
    | some s =>
      if varsContains s.vars key then varsGet s.vars key
      else
        match s.parent with
        | some p => Environment.getAux σ fuel p key
        | none => none

/-- Environment::get entry point (fuel instantiated with the store size). -/
def Environment.get (σ : List Scope) (id : Nat) (key : String) : Option (Option Value) :=
  Environment.getAux σ σ.length id key

/-- Environment::assign from environment.rs: if the current scope contains
the key, replace its binding and return true; else delegate to the parent;
with no parent return false.  Returns the flag and the updated store. -/
def Environment.assignAux (σ : List Scope) : Nat → Nat → String → Value → Bool × List Scope
  | 0, _, _, _ => (false, σ)
  | fuel + 1, id, key, value =>
    match σ[id]? with
    | none => (false, σ)
    | some s =>
      if varsContains s.vars key then
        (true, listModify σ id (fun sc => sc.register key (some value)))
      else
        match s.parent with
        | some p => Environment.assignAux σ fuel p key value
        | none => (false, σ)

/-- Environment::assign entry point (fuel instantiated with the store
size). -/
def Environment.assign (σ : List Scope) (id : Nat) (key : String) (value : Value) : Bool × List Scope :=
  Environment.assignAux σ σ.length id key value

/-- Interpreter state threaded through evaluation: the environment store
and the lines printed to stdout so far. -/
structure Interp where
  store : List Scope
  output : List String

/-- Model of `println!` on the output sink. -/
def Interp.println (st : Interp) (line : String) : Interp :=
  { st with output := st.output ++ [line] }

/-- Rust `f64 as usize` applied to a non-negative-or-clamped repetition
count in `ValueNode::multiply`: truncation toward zero, saturating at
zero for negative inputs (the upper saturation bound `usize::MAX` of the
machine cast is not modelled; no claim concerns counts of that size). -/
def ratAsUsize (q : ℚ) : Nat := q.floor.toNat

/-- str::repeat - `n` concatenated copies of the string. -/
def strRepeat (s : String) (n : Nat) : String :=
  String.join (List.replicate n s)

/-- PartialOrd::partial_cmp on two numbers (total on `ℚ`; the `None` case
of `f64` arises only for NaN, which no claim concerns). -/
def ratCompare (l r : ℚ) : Ordering :=
  if l < r then .lt else if l = r then .eq else .gt

/-- PartialOrd::partial_cmp on two booleans (false < true). -/
def boolCompare (l r : Bool) : Ordering :=
  if l = r then .eq else if l = false then .lt else .gt

/-- PartialOrd::partial_cmp on two strings: Rust compares the UTF-8 bytes
lexicographically, which coincides with Lean's character-lexicographic
order because UTF-8 preserves code-point order. -/
def strCompare (l r : String) : Ordering :=
  if l < r then .lt else if l = r then .eq else .gt

/-- ValueNode::from_literal from value.rs. -/
def ValueNode.from_literal (literal : LiteralType) (position : Position) : ValueNode :=
  let value : Value :=
    match literal with
    | .NumberLit value => .Number value
    | .StringLit value => .Str value
    | .TrueLit => .Boolean true
    | .FalseLit => .Boolean false
    | .NilLit => .Nil
  ValueNode.new value position

/-- ValueNode::as_number from value.rs. -/
def ValueNode.as_number (self : ValueNode) : EvaluationResult ℚ :=
  match self.value with
  | .Number num => .ok num
  | _ => .error (.Error (RuntimeError.type_error self "Number"))

/-- ValueNode::as_boolean from value.rs: booleans are themselves, `Nil` is
false, everything else is a TypeError. -/
def ValueNode.as_boolean (self : ValueNode) : EvaluationResult Bool :=
  match self.value with
  | .Boolean b => .ok b
  | .Nil => .ok false
  | _ => .error (.Error (RuntimeError.type_error self "Boolean"))

/-- ValueNode::as_str from value.rs. -/
def ValueNode.as_str (self : ValueNode) : EvaluationResult String :=
  match self.value with
  | .Str s => .ok s
  | _ => .error (.Error (RuntimeError.type_error self "String"))

/-- ValueNode::negative from value.rs. -/
def ValueNode.negative (self : ValueNode) : EvaluationResult Value :=
  match self.as_number with
  | .ok n => .ok (.Number (-n))
  | .error e => .error e

/-- ValueNode::add from value.rs: number addition, string concatenation,
TypeError otherwise. -/
def ValueNode.add (self other : ValueNode) : EvaluationResult Value :=
  match self.value with
  | .Number l =>
    match other.as_number with
    | .ok r => .ok (.Number (l + r))
    | .error e => .error e
  | .Str l =>
    match other.as_str with
    | .ok r => .ok (.Str (l ++ r))
    | .error e => .error e
  | _ => .error (.Error (RuntimeError.type_error self "Number"))

/-- ValueNode::subtract from value.rs. -/
def ValueNode.subtract (self other : ValueNode) : EvaluationResult Value :=
  match self.as_number with
  | .ok l =>
    match other.as_number with
    | .ok r => .ok (.Number (l - r))
    | .error e => .error e
  | .error e => .error e

/-- ValueNode::multiply from value.rs: number multiplication, or string
repetition `l.repeat(r as usize)` when the left operand is a string. -/
def ValueNode.multiply (self other : ValueNode) : EvaluationResult Value :=
  match self.value with
  | .Number l =>
    match other.as_number with
    | .ok r => .ok (.Number (l * r))
    | .error e => .error e
  | .Str l =>
    match other.as_number with
    | .ok r => .ok (.Str (strRepeat l (ratAsUsize r)))
    | .error e => .error e
  | _ => .error (.Error (RuntimeError.type_error self "Number or String"))

/-- ValueNode::divide from value.rs (division by zero yields `0` in the
`ℚ` model where IEEE gives ±∞/NaN; no claim divides by zero). -/
def ValueNode.divide (self other : ValueNode) : EvaluationResult Value :=
  match self.as_number with
  | .ok l =>
    match other.as_number with
    | .ok r => .ok (.Number (l / r))
    | .error e => .error e
  | .error e => .error e

/-- ValueNode::equals from value.rs: the derived PartialEq of the whole
node, position field included. -/
def ValueNode.equals (self other : ValueNode) : EvaluationResult Value :=
  .ok (.Boolean (ValueNode.beq self other))

/-- ValueNode::not_equals from value.rs. -/
def ValueNode.not_equals (self other : ValueNode) : EvaluationResult Value :=
  .ok (.Boolean (! ValueNode.beq self other))

/-- ValueNode::compare from value.rs: like-typed operands compare, any
unlike pairing is `None`. -/
def ValueNode.compare (self other : ValueNode) : Option Ordering :=
  match self.value, other.value with
  | .Number l, .Number r => some (ratCompare l r)
  | .Boolean l, .Boolean r => some (boolCompare l r)
  | .Str l, .Str r => some (strCompare l r)
  | _, _ => none

/-- ValueNode::less_than from value.rs. -/
def ValueNode.less_than (self other : ValueNode) : EvaluationResult Value :=
  .ok (.Boolean ((self.compare other).elim false (fun o => o == .lt)))

/-- ValueNode::less_than_or_equals from value.rs. -/
def ValueNode.less_than_or_equals (self other : ValueNode) : EvaluationResult Value :=
  .ok (.Boolean ((self.compare other).elim false (fun o => o == .lt || o == .eq)))

/-- ValueNode::greater_than from value.rs. -/
def ValueNode.greater_than (self other : ValueNode) : EvaluationResult Value :=
  .ok (.Boolean ((self.compare other).elim false (fun o => o == .gt)))

/-- ValueNode::greater_than_or_equals from value.rs. -/
def ValueNode.greater_than_or_equals (self other : ValueNode) : EvaluationResult Value :=
  .ok (.Boolean ((self.compare other).elim false (fun o => o == .gt || o == .eq)))

/-- ValueNode::not from value.rs (boolean negation through as_boolean). -/
def ValueNode.not (self : ValueNode) : EvaluationResult Value :=
  match self.as_boolean with
  | .ok b => .ok (.Boolean (!b))
  | .error e => .error e

mutual

/-- Statement evaluation: the arms of `evaluate_statement` in
evaluation.rs, run over the `ReturnOrError` channel of value.rs.  Two
arms exist in no checked-in file and are modelled from the spec:
the `Function` arm ("construct a function object whose closure is the
current environment, then define(name, func)") and the `Return` arm
("evaluate `maybe_e` (or `Nil`), then signal a non-local transfer
carrying that value").  The fuel decreases on every recursive call;
`none` means the fuel ran out. -/
def evaluate_statement : Nat → Statement → Nat → Interp → Option (EvaluationResult Value × Interp)
  | 0, _, _, _ => none
  | fuel + 1, stmt, env, st =>
    match stmt with
    | .Print expr =>
      match evaluate_expression fuel expr env st with
      | none => none
      | some (.error e, st') => some (.error e, st')
      | some (.ok inner_value, st') =>
        some (.ok inner_value.value, st'.println inner_value.value.display)
    | .Expression expr =>
      match evaluate_expression fuel expr env st with
      | none => none
      | some (.error e, st') => some (.error e, st')
      | some (.ok v, st') => some (.ok v.value, st')
    | .Var name initializer =>
      match initializer with
      | some expr =>
        match evaluate_expression fuel expr env st with
        | none => none
        | some (.error e, st') => some (.error e, st')
        | some (.ok v, st') =>
          some (.ok .Nil, { st' with store := Environment.register st'.store env name (some v.value) })
      | none =>
        some (.ok .Nil, { st with store := Environment.register st.store env name none })
    | .Block statements =>
      let a := alloc st.store (Environment.wrap env)
      match evaluate_statements fuel statements a.2 { st with store := a.1 } with
      | none => none
      | some (.error e, st') => some (.error e, st')
      | some (.ok _, st') => some (.ok .Nil, st')
    | .If condition then_branch else_branch =>
      match evaluate_expression fuel condition env st with
      | none => none
      | some (.error e, st') => some (.error e, st')
      | some (.ok c, st') =>
        match c.as_boolean with
        | .error e => some (.error e, st')
        | .ok true => evaluate_statement fuel then_branch env st'
        | .ok false =>
          match else_branch with
          | some eb => evaluate_statement fuel eb env st'
          | none => some (.ok .Nil, st')
    | .While condition body =>
      match evaluate_expression fuel condition env st with
      | none => none
      | some (.error e, st') => some (.error e, st')
      | some (.ok c, st') =>
        match c.as_boolean with
        | .error e => some (.error e, st')
        | .ok false => some (.ok .Nil, st')
        | .ok true =>
          match evaluate_statement fuel body env st' with
          | none => none
          | some (.error e, st'') => some (.error e, st'')
          | some (.ok _, st'') => evaluate_statement fuel (.While condition body) env st''
    | .Function name parameters body =>
      let container : FunctionContainer := ⟨name, parameters, body, env⟩
      some (.ok .Nil,
        { st with store := Environment.register st.store env name (some (.Function container)) })
    | .Return maybe_e =>
      match maybe_e with
      | some expr =>
        match evaluate_expression fuel expr env st with
        | none => none
        | some (.error e, st') => some (.error e, st')
        | some (.ok v, st') => some (.error (.Return v.value), st')
      | none => some (.error (.Return .Nil), st)
termination_by structural fuel => fuel

/-- Sequential evaluation of a block's statements (the `for` loop inside
the `Block` arm): stop at the first error. -/
def evaluate_statements : Nat → List Statement → Nat → Interp → Option (EvaluationResult Unit × Interp)
  | 0, _, _, _ => none
  | _ + 1, [], _, st => some (.ok (), st)
  | fuel + 1, stmt :: rest, env, st =>
    match evaluate_statement fuel stmt env st with
    | none => none
    | some (.error e, st') => some (.error e, st')
    | some (.ok _, st') => evaluate_statements fuel rest env st'
termination_by structural fuel => fuel

/-- Expression evaluation: the arms of `evaluate_expression` in
evaluation.rs over the value.rs operations. -/
def evaluate_expression : Nat → ExpressionNode → Nat → Interp → Option (EvaluationResult ValueNode × Interp)
  | 0, _, _, _ => none
  | fuel + 1, expr, env, st =>
    match expr.expression with
    | .Literal lit => some (.ok (ValueNode.from_literal lit expr.position), st)
    | .Grouping inner => evaluate_expression fuel inner env st
    | .Unary inner op =>
      match evaluate_expression fuel inner env st with
      | none => none
      | some (.error e, st') => some (.error e, st')
      | some (.ok inner_value, st') =>
        let value : EvaluationResult Value :=
          match op with
          | .Negative => inner_value.negative
          | .Not => inner_value.not
        match value with
        | .error e => some (.error e, st')
        | .ok v => some (.ok (ValueNode.new v expr.position), st')
    | .Binary left right op =>
      match evaluate_expression fuel left env st with
      | none => none
      | some (.error e, st') => some (.error e, st')
      | some (.ok left_value, st') =>
        match evaluate_expression fuel right env st' with
        | none => none
        | some (.error e, st'') => some (.error e, st'')
        | some (.ok right_value, st'') =>
          let value : EvaluationResult Value :=
            match op with
            | .Equals => left_value.equals right_value
            | .NotEquals => left_value.not_equals right_value
            | .LessThan => left_value.less_than right_value
            | .LessThanOrEquals => left_value.less_than_or_equals right_value
            | .GreaterThan => left_value.greater_than right_value
            | .GreaterThanOrEquals => left_value.greater_than_or_equals right_value
            | .Add => left_value.add right_value
            | .Subtract => left_value.subtract right_value
            | .Multiply => left_value.multiply right_value
            | .Divide => left_value.divide right_value
          match value with
          | .error e => some (.error e, st'')
          | .ok v => some (.ok (ValueNode.new v expr.position), st'')
    | .Logical left right op =>
      match evaluate_expression fuel left env st with
      | none => none
      | some (.error e, st') => some (.error e, st')
      | some (.ok left_value, st') =>
        match op with
        | .And =>
          match left_value.as_boolean with
          | .error e => some (.error e, st')
          | .ok false => some (.ok (ValueNode.new (.Boolean false) expr.position), st')
          | .ok true =>
            match evaluate_expression fuel right env st' with
            | none => none
            | some (.error e, st'') => some (.error e, st'')
            | some (.ok right_value, st'') =>
              some (.ok (ValueNode.new right_value.value expr.position), st'')
        | .Or =>
          match left_value.as_boolean with
          | .error e => some (.error e, st')
          | .ok true => some (.ok (ValueNode.new (.Boolean true) expr.position), st')
          | .ok false =>
            match evaluate_expression fuel right env st' with
            | none => none
            | some (.error e, st'') => some (.error e, st'')
            | some (.ok right_value, st'') =>
              some (.ok (ValueNode.new right_value.value expr.position), st'')
    | .Variable name =>
      match Environment.get st.store env name with
      | some (some value) => some (.ok (ValueNode.new value expr.position), st)
      | some none =>
        some (.error (.Error (RuntimeError.uninitialized_variable name expr.position)), st)
      | none =>
        some (.error (.Error (RuntimeError.unknown_identifier name expr.position)), st)
    | .Assignment name value =>
      match evaluate_expression fuel value env st with
      | none => none
      | some (.error e, st') => some (.error e, st')
      | some (.ok v, st') =>
        let r := Environment.assign st'.store env name v.value
        match r.1 with
        | true => some (.ok (ValueNode.new .Nil expr.position), { st' with store := r.2 })
        | false =>
          some (.error (.Error (RuntimeError.unknown_identifier name expr.position)), st')
    | .Call callee arguments =>
      match evaluate_expression fuel callee env st with
      | none => none
      | some (.error e, st') => some (.error e, st')
      | some (.ok callee_expr, st') =>
        match evaluate_arguments fuel arguments env st' with
        | none => none
        | some (.error e, st'') => some (.error e, st'')
        | some (.ok argument_values, st'') =>
          match ValueNode.call fuel callee_expr argument_values st'' with
          | none => none
          | some (.error e, st''') => some (.error e, st''')
          | some (.ok value, st''') => some (.ok (ValueNode.new value expr.position), st''')
termination_by structural fuel => fuel

/-- Left-to-right evaluation of call arguments (the `collect` over the
argument iterator): stop at the first error. -/
def evaluate_arguments : Nat → List ExpressionNode → Nat → Interp → Option (EvaluationResult (List ValueNode) × Interp)
  | 0, _, _, _ => none
  | _ + 1, [], _, st => some (.ok [], st)
  | fuel + 1, argExpr :: rest, env, st =>
    match evaluate_expression fuel argExpr env st with
    | none => none
    | some (.error e, st') => some (.error e, st')
    | some (.ok v, st') =>
      match evaluate_arguments fuel rest env st' with
      | none => none
      | some (.error e, st'') => some (.error e, st'')
      | some (.ok vs, st'') => some (.ok (v :: vs), st'')
termination_by structural fuel => fuel

/-- ValueNode::call from value.rs: calling a `Function` runs the
container and converts a `Return` signal into the call's result; calling
anything else is a TypeError expecting "Callable". -/
def ValueNode.call : Nat → ValueNode → List ValueNode → Interp → Option (EvaluationResult Value × Interp)
  | 0, _, _, _ => none
  | fuel + 1, self, arguments, st =>
    match self.value with
    | .Function container =>
      match FunctionContainer.call fuel container arguments st with
      | none => none
      | some (.ok v, st') => some (.ok v, st')
      | some (.error (.Return r), st') => some (.ok r, st')
      | some (.error (.Error e), st') => some (.error (.Error e), st')
    | _ => some (.error (.Error (RuntimeError.type_error self "Callable")), st)
termination_by structural fuel => fuel

/-- Callable::call for FunctionContainer from callable.rs: a fresh scope
wrapping the captured closure, the parameters registered positionally
against the arguments (`zip` stops at the shorter list), then the body is
evaluated in that scope. -/
def FunctionContainer.call : Nat → FunctionContainer → List ValueNode → Interp → Option (EvaluationResult Value × Interp)
  | 0, _, _, _ => none
  | fuel + 1, self, arguments, st =>
    let env : Scope :=
      (self.parameters.zip arguments).foldl
        (fun e kv => e.register kv.1 (some kv.2.value)) (Environment.wrap self.closure)
    let a := alloc st.store env
    evaluate_statement fuel self.body a.2 { st with store := a.1 }
termination_by structural fuel => fuel

end

/-- Top-level `evaluate` from evaluation.rs: statement-by-statement, the
result is the last statement's value (`Nil` for an empty program) and the
first error aborts the run. -/
def evaluate (fuel : Nat) : List Statement → Nat → Interp → Option (EvaluationResult Value × Interp)
  | [], _, st => some (.ok .Nil, st)
  | [stmt], env, st => evaluate_statement fuel stmt env st
  | stmt :: rest, env, st =>
    match evaluate_statement fuel stmt env st with
    | none => none
    | some (.error e, st') => some (.error e, st')
    | some (.ok _, st') => evaluate fuel rest env st'

/-- TryFrom\<&TokenType\> for BinaryOp from expression.rs. -/
def BinaryOp.try_from : TokenType → Option BinaryOp
  | .EqualEqual => some .Equals
  | .BangEqual => some .NotEquals
  | .Greater => some .GreaterThan
  | .GreaterEqual => some .GreaterThanOrEquals
  | .Less => some .LessThan
  | .LessEqual => some .LessThanOrEquals
  | .Minus => some .Subtract
  | .Plus => some .Add
  | .Slash => some .Divide
  | .Star => some .Multiply
  | _ => none

/-- TryFrom\<&TokenType\> for LogicalOp from expression.rs. -/
def LogicalOp.try_from : TokenType → Option LogicalOp
  | .And => some .And
  | .Or => some .Or
  | _ => none

/-- TryFrom\<&TokenType\> for UnaryOp from expression.rs. -/
def UnaryOp.try_from : TokenType → Option UnaryOp
  | .Bang => some .Not
  | .Minus => some .Negative
  | _ => none

/-- TokenIter from parser.rs: the peekable token cursor plus the `size`
(one past the last token's span, used for end-of-stream error spans). -/
structure TokenIter where
  peekable : List Token
  size : Nat

/-- Peekable::peek. -/
def TokenIter.peek (self : TokenIter) : Option Token := self.peekable.head?

/-- Iterator::next for the token cursor. -/
def TokenIter.next (self : TokenIter) : Option (Token × TokenIter) :=
  match self.peekable with
  | [] => none
  | t :: rest => some (t, ⟨rest, self.size⟩)

/-- Peekable::next_if: advance only when the head satisfies the test. -/
def TokenIter.next_if (self : TokenIter) (func : Token → Bool) : Option (Token × TokenIter) :=
  match self.peekable with
  | t :: rest => if func t then some (t, ⟨rest, self.size⟩) else none
  | [] => none

/-- Outcome of a parser function: a value with the rest of the cursor, a
`ParseError` (the Rust `Err`), a Rust panic (`todo!()` or a failed
`unwrap`), or fuel exhaustion (a model artifact, distinct from every
behaviour of the Rust code). -/
inductive ParseOut (α : Type) where
  | ok (value : α) (tokens : TokenIter)
  | fail (error : LoxError)
  | panicked
  | fuelOut

/-- Sequencing of parser steps; models the `?` operator of parser.rs. -/
def ParseOut.bind : ParseOut α → (α → TokenIter → ParseOut β) → ParseOut β
  | .ok v t, f => f v t
  | .fail e, _ => .fail e
  | .panicked, _ => .panicked
  | .fuelOut, _ => .fuelOut

/-- Generic `_consume` from parser.rs. -/
def consumeMatching (tokens : TokenIter) (token_matcher : TokenType → Bool)
    (expected : String) (eof_error : Unit → LoxError) : ParseOut Token :=
  match tokens.next with
  | some (t, rest) =>
    if token_matcher t.token_type then .ok t rest
    else .fail (ParseError.unexpected_token t expected)
  | none => .fail (eof_error ())

/-- consume from parser.rs (its end-of-stream error always claims a
semicolon was expected - a quirk kept from the source). -/
def consume (tokens : TokenIter) (token_type : TokenType) : ParseOut Token :=
  consumeMatching tokens (fun t => t == token_type) token_type.display
    (fun _ => ParseError.unexpected_token_raw .Eof .Semicolon (Position.new tokens.size 1))

/-- consume_closing_delimiter from parser.rs: a missing `)` or `}` at
end-of-stream is an UnclosedDelimiter spanning the opening position and
the synthetic end-of-stream position. -/
def consume_closing_delimiter (tokens : TokenIter) (expected : TokenType)
    (opening_delimiter_position : Position) : ParseOut Token :=
  consumeMatching tokens (fun t => t == expected) expected.display
    (fun _ => ParseError.unclosed_delimiter opening_delimiter_position (Position.new tokens.size 1))

/-- consume_identifier from parser.rs. -/
def consume_identifier (tokens : TokenIter) : ParseOut String :=
  (consumeMatching tokens
      (fun t => match t with | .Identifier _ => true | _ => false) "Identifier"
      (fun _ => ParseError.unexpected_end_of_stream)).bind fun identifier rest =>
    match identifier.token_type with
    | .Identifier i => .ok i rest
    | _ => .panicked

/-- Desugaring tail of for_statement in parser.rs (lines 229-242): wrap
the body with the increment when present, wrap that in a `While` whose
condition defaults to the literal `true` at span (0,1), and prepend the
initializer when present. -/
def for_desugar (initializer : Option Statement) (condition : Option ExpressionNode)
    (increment : Option ExpressionNode) (body : Statement) : Statement :=
  let body₁ :=
    match increment with
    | some inc => Statement.Block [body, Statement.Expression inc]
    | none => body
  let body₂ := Statement.While
    (condition.getD (ExpressionNode.new (.Literal .TrueLit) (Position.new 0 1))) body₁
  match initializer with
  | some init => Statement.Block [init, body₂]
  | none => body₂

mutual

/-- While-loop of `parse` in parser.rs: keep parsing declarations until
the cursor is exhausted. -/
def parse_loop : Nat → TokenIter → List Statement → ParseOut (List Statement)
  | 0, _, _ => .fuelOut
  | fuel + 1, token_iter, statements =>
    match token_iter.peek with
    | none => .ok statements token_iter
    | some _ =>
      (declaration fuel token_iter).bind fun stmt it =>
        parse_loop fuel it (statements ++ [stmt])
termination_by structural fuel => fuel

/-- declaration from parser.rs (its `todo!()` on an exhausted cursor is
`panicked`; `parse` only calls it with a token available). -/
def declaration : Nat → TokenIter → ParseOut Statement
  | 0, _ => .fuelOut
  | fuel + 1, tokens =>
    match tokens.peek with
    | some tok =>
      match tok.token_type with
      | .Fun =>
        match tokens.next with
        | some (_, tokens₁) => function fuel tokens₁
        | none => .panicked
      | .Var =>
        match tokens.next with
        | some (_, tokens₁) => var fuel tokens₁
        | none => .panicked
      | _ => statement fuel tokens
    | none => .panicked
termination_by structural fuel => fuel

/-- function from parser.rs: name, parameter list, brace-delimited body. -/
def function : Nat → TokenIter → ParseOut Statement
  | 0, _ => .fuelOut
  | fuel + 1, tokens =>
    (consume_identifier tokens).bind fun name tokens₁ =>
    (consume tokens₁ .LeftParent).bind fun _ tokens₂ =>
    (match tokens₂.next_if (fun t => t.token_type == TokenType.RightParent) with
     | some (_, tokens₃) => ParseOut.ok ([] : List String) tokens₃
     | none => function_params fuel tokens₂ []).bind fun parameters tokens₄ =>
    (consume tokens₄ .LeftBrace).bind fun left_brace tokens₅ =>
    (block fuel tokens₅ left_brace.position).bind fun body tokens₆ =>
    ParseOut.ok (Statement.Function name parameters body) tokens₆
termination_by structural fuel => fuel

/-- Parameter loop of `function` in parser.rs. -/
def function_params : Nat → TokenIter → List String → ParseOut (List String)
  | 0, _, _ => .fuelOut
  | fuel + 1, tokens, parameters =>
    (consume_identifier tokens).bind fun p tokens₁ =>
    let parameters₁ := parameters ++ [p]
    if (tokens₁.peek.map fun t => t.token_type == TokenType.RightParent).getD false then
      match tokens₁.next with
      | some (_, tokens₂) => .ok parameters₁ tokens₂
      | none => .panicked
    else
      (consume tokens₁ .Comma).bind fun _ tokens₂ =>
      function_params fuel tokens₂ parameters₁
termination_by structural fuel => fuel

/-- var from parser.rs: identifier, optional `= expression`, semicolon. -/
def var : Nat → TokenIter → ParseOut Statement
  | 0, _ => .fuelOut
  | fuel + 1, tokens =>
    (consume_identifier tokens).bind fun identifier tokens₁ =>
    (match tokens₁.next_if (fun t => t.token_type == TokenType.Equal) with
     | some (_, tokens₂) =>
       (expression fuel tokens₂).bind fun e tokens₃ => ParseOut.ok (some e) tokens₃
     | none => ParseOut.ok (none : Option ExpressionNode) tokens₁).bind
      fun initializer tokens₄ =>
    (consume tokens₄ .Semicolon).bind fun _ tokens₅ =>
    ParseOut.ok (Statement.Var identifier initializer) tokens₅

/-- statement from parser.rs. -/
def statement : Nat → TokenIter → ParseOut Statement
  | 0, _ => .fuelOut
  | fuel + 1, tokens =>
    match tokens.peek with
    | some tok =>
      match tok.token_type with
      | .If =>
        match tokens.next with
        | some (_, tokens₁) => if_statement fuel tokens₁
        | none => .panicked
      | .While =>
        match tokens.next with
        | some (_, tokens₁) => while_statement fuel tokens₁
        | none => .panicked
      | .For =>
        match tokens.next with
        | some (_, tokens₁) => for_statement fuel tokens₁
        | none => .panicked
      | .Return =>
        match tokens.next with
        | some (_, tokens₁) => return_statement fuel tokens₁
        | none => .panicked
      | .Print =>
        match tokens.next with
        | some (_, tokens₁) => print_statement fuel tokens₁
        | none => .panicked
      | .LeftBrace =>
        match tokens.next with
        | some (brace, tokens₁) => block fuel tokens₁ brace.position
        | none => .panicked
      | _ => expression_statement fuel tokens
    | none => .panicked
termination_by structural fuel => fuel

/-- if_statement from parser.rs: the condition is parsed as a bare
expression (no mandatory parentheses). -/
def if_statement : Nat → TokenIter → ParseOut Statement
  | 0, _ => .fuelOut
  | fuel + 1, tokens =>
    (expression fuel tokens).bind fun condition tokens₁ =>
    (statement fuel tokens₁).bind fun then_branch tokens₂ =>
    (match tokens₂.next_if (fun t => t.token_type == TokenType.Else) with
     | some (_, tokens₃) =>
       (statement fuel tokens₃).bind fun eb tokens₄ => ParseOut.ok (some eb) tokens₄
     | none => ParseOut.ok (none : Option Statement) tokens₂).bind
      fun else_branch tokens₅ =>
    ParseOut.ok (Statement.If condition then_branch else_branch) tokens₅
termination_by structural fuel => fuel

/-- while_statement from parser.rs. -/
def while_statement : Nat → TokenIter → ParseOut Statement
  | 0, _ => .fuelOut
  | fuel + 1, tokens =>
    (expression fuel tokens).bind fun condition tokens₁ =>
    (statement fuel tokens₁).bind fun body tokens₂ =>
    ParseOut.ok (Statement.While condition body) tokens₂
termination_by structural fuel => fuel

/-- for_statement from parser.rs.  Note the source consumes no
parentheses around the loop header: the initializer begins right after
the `for` keyword and the condition and increment clauses each end at a
semicolon consumed by `for_statement_clause`. -/
def for_statement : Nat → TokenIter → ParseOut Statement
  | 0, _ => .fuelOut
  | fuel + 1, tokens =>
    (match tokens.peek with
     | some tok =>
       match tok.token_type with
       | .Var =>
         match tokens.next with
         | some (_, tokens₁) =>
           (var fuel tokens₁).bind fun i t => ParseOut.ok (some i) t
         | none => .panicked
       | .Semicolon =>
         match tokens.next with
         | some (_, tokens₁) => ParseOut.ok (none : Option Statement) tokens₁
         | none => .panicked
       | _ =>
         (expression_statement fuel tokens).bind fun i t => ParseOut.ok (some i) t
     | none => ParseOut.fail ParseError.unexpected_end_of_stream).bind
      fun initializer tokens₂ =>
    (for_statement_clause fuel tokens₂).bind fun condition tokens₃ =>
    (for_statement_clause fuel tokens₃).bind fun increment tokens₄ =>
    (statement fuel tokens₄).bind fun body tokens₅ =>
    ParseOut.ok (for_desugar initializer condition increment body) tokens₅
termination_by structural fuel => fuel

/-- Nested helper fn `parse` inside for_statement in parser.rs: an
optional expression clause terminated by a semicolon. -/
def for_statement_clause : Nat → TokenIter → ParseOut (Option ExpressionNode)
  | 0, _ => .fuelOut
  | fuel + 1, tokens =>
    match tokens.peek with
    | some tok =>
      match tok.token_type with
      | .Semicolon =>
        match tokens.next with
        | some (_, tokens₁) => .ok none tokens₁
        | none => .panicked
      | _ =>
        (expression fuel tokens).bind fun e tokens₁ =>
        (consume tokens₁ .Semicolon).bind fun _ tokens₂ =>
        ParseOut.ok (some e) tokens₂
    | none => .fail ParseError.unexpected_end_of_stream

/-- return_statement from parser.rs.  The source consumes the semicolon
inside the peek match for a bare `return;` and then unconditionally
consumes another semicolon - a quirk kept by the model. -/
def return_statement : Nat → TokenIter → ParseOut Statement
  | 0, _ => .fuelOut
  | fuel + 1, tokens =>
    (match tokens.peek with
     | some ⟨.Semicolon, _⟩ =>
       match tokens.next with
       | some (_, tokens₁) => ParseOut.ok (none : Option ExpressionNode) tokens₁
       | none => .panicked
     | _ =>
       (expression fuel tokens).bind fun e t => ParseOut.ok (some e) t).bind
      fun return_expression tokens₂ =>
    (consume tokens₂ .Semicolon).bind fun _ tokens₃ =>
    ParseOut.ok (Statement.Return return_expression) tokens₃

/-- print_statement from parser.rs. -/
def print_statement : Nat → TokenIter → ParseOut Statement
  | 0, _ => .fuelOut
  | fuel + 1, tokens =>
    (expression fuel tokens).bind fun e tokens₁ =>
    (consume tokens₁ .Semicolon).bind fun _ tokens₂ =>
    ParseOut.ok (Statement.Print e) tokens₂

/-- block from parser.rs: declarations until the closing brace. -/
def block : Nat → TokenIter → Position → ParseOut Statement
  | 0, _, _ => .fuelOut
  | fuel + 1, tokens, opening_brace_pos =>
    (block_loop fuel tokens []).bind fun statements tokens₁ =>
    (consume_closing_delimiter tokens₁ .RightBrace opening_brace_pos).bind fun _ tokens₂ =>
    ParseOut.ok (Statement.Block statements) tokens₂
termination_by structural fuel => fuel

/-- Statement loop of `block` in parser.rs. -/
def block_loop : Nat → TokenIter → List Statement → ParseOut (List Statement)
  | 0, _, _ => .fuelOut
  | fuel + 1, tokens, statements =>
    match tokens.peek with
    | some tok =>
      match tok.token_type with
      | .RightBrace => .ok statements tokens
      | _ =>
        (declaration fuel tokens).bind fun s tokens₁ =>
        block_loop fuel tokens₁ (statements ++ [s])
    | none => .fail ParseError.unexpected_end_of_stream
termination_by structural fuel => fuel

/-- expression_statement from parser.rs. -/
def expression_statement : Nat → TokenIter → ParseOut Statement
  | 0, _ => .fuelOut
  | fuel + 1, tokens =>
    (expression fuel tokens).bind fun e tokens₁ =>
    (consume tokens₁ .Semicolon).bind fun _ tokens₂ =>
    ParseOut.ok (Statement.Expression e) tokens₂

/-- expression from parser.rs. -/
def expression : Nat → TokenIter → ParseOut ExpressionNode
  | 0, _ => .fuelOut
  | fuel + 1, tokens => assignment fuel tokens
termination_by structural fuel => fuel

/-- assignment from parser.rs: parse the left side as an `or` expression;
on `=`, recurse right-associatively and reinterpret a `Variable` left
side as an assignment target, anything else being an
InvalidAssignmentTarget at the left side's position. -/
def assignment : Nat → TokenIter → ParseOut ExpressionNode
  | 0, _ => .fuelOut
  | fuel + 1, tokens =>
    (or fuel tokens).bind fun expression_node tokens₁ =>
    match tokens₁.next_if (fun n => n.token_type == TokenType.Equal) with
    | some (_, tokens₂) =>
      (assignment fuel tokens₂).bind fun value tokens₃ =>
      (match expression_node.expression with
       | .Variable name =>
         let length := value.position.end_position - expression_node.position.absolute
         let a := Expression.Assignment name value
         let position := Position.new expression_node.position.absolute length
         ParseOut.ok (ExpressionNode.new a position) tokens₃
       | _ => ParseOut.fail (ParseError.invalid_assignment_target expression_node.position))
    | none => .ok expression_node tokens₁
termination_by structural fuel => fuel

/-- or level of the precedence cascade (parse_logical_op instantiated at
`[Or]` over `and`, as parser.rs does through parse_bi_op). -/
def or : Nat → TokenIter → ParseOut ExpressionNode
  | 0, _ => .fuelOut
  | fuel + 1, tokens =>
    (and fuel tokens).bind fun expression_node tokens₁ =>
    or_loop fuel expression_node tokens₁
termination_by structural fuel => fuel

/-- Operator loop of the or level. -/
def or_loop : Nat → ExpressionNode → TokenIter → ParseOut ExpressionNode
  | 0, _, _ => .fuelOut
  | fuel + 1, expression_node, tokens =>
    match tokens.next_if (fun token => [TokenType.Or].contains token.token_type) with
    | none => .ok expression_node tokens
    | some (op_token, tokens₁) =>
      match LogicalOp.try_from op_token.token_type with
      | none => .fail (ParseError.illegal_token op_token)
      | some op =>
        (and fuel tokens₁).bind fun right tokens₂ =>
        let start_pos := expression_node.position.absolute
        let length := right.position.absolute + right.position.length - start_pos
        or_loop fuel
          (ExpressionNode.new (Expression.Logical expression_node right op)
            (Position.new start_pos length)) tokens₂
termination_by structural fuel => fuel

/-- and level of the precedence cascade. -/
def and : Nat → TokenIter → ParseOut ExpressionNode
  | 0, _ => .fuelOut
  | fuel + 1, tokens =>
    (equality fuel tokens).bind fun expression_node tokens₁ =>
    and_loop fuel expression_node tokens₁
termination_by structural fuel => fuel

/-- Operator loop of the and level. -/
def and_loop : Nat → ExpressionNode → TokenIter → ParseOut ExpressionNode
  | 0, _, _ => .fuelOut
  | fuel + 1, expression_node, tokens =>
    match tokens.next_if (fun token => [TokenType.And].contains token.token_type) with
    | none => .ok expression_node tokens
    | some (op_token, tokens₁) =>
      match LogicalOp.try_from op_token.token_type with
      | none => .fail (ParseError.illegal_token op_token)
      | some op =>
        (equality fuel tokens₁).bind fun right tokens₂ =>
        let start_pos := expression_node.position.absolute
        let length := right.position.absolute + right.position.length - start_pos
        and_loop fuel
          (ExpressionNode.new (Expression.Logical expression_node right op)
            (Position.new start_pos length)) tokens₂
termination_by structural fuel => fuel

/-- equality level of the precedence cascade. -/
def equality : Nat → TokenIter → ParseOut ExpressionNode
  | 0, _ => .fuelOut
  | fuel + 1, tokens =>
    (comparison fuel tokens).bind fun expression_node tokens₁ =>
    equality_loop fuel expression_node tokens₁
termination_by structural fuel => fuel

/-- Operator loop of the equality level. -/
def equality_loop : Nat → ExpressionNode → TokenIter → ParseOut ExpressionNode
  | 0, _, _ => .fuelOut
  | fuel + 1, expression_node, tokens =>
    match tokens.next_if
        (fun token => [TokenType.BangEqual, TokenType.EqualEqual].contains token.token_type) with
    | none => .ok expression_node tokens
    | some (op_token, tokens₁) =>
      match BinaryOp.try_from op_token.token_type with
      | none => .fail (ParseError.illegal_token op_token)
      | some op =>
        (comparison fuel tokens₁).bind fun right tokens₂ =>
        let start_pos := expression_node.position.absolute
        let length := right.position.absolute + right.position.length - start_pos
        equality_loop fuel
          (ExpressionNode.new (Expression.Binary expression_node right op)
            (Position.new start_pos length)) tokens₂
termination_by structural fuel => fuel

/-- comparison level of the precedence cascade. -/
def comparison : Nat → TokenIter → ParseOut ExpressionNode
  | 0, _ => .fuelOut
  | fuel + 1, tokens =>
    (term fuel tokens).bind fun expression_node tokens₁ =>
    comparison_loop fuel expression_node tokens₁
termination_by structural fuel => fuel

/-- Operator loop of the comparison level. -/
def comparison_loop : Nat → ExpressionNode → TokenIter → ParseOut ExpressionNode
  | 0, _, _ => .fuelOut
  | fuel + 1, expression_node, tokens =>
    match tokens.next_if
        (fun token => [TokenType.Greater, TokenType.GreaterEqual,
          TokenType.Less, TokenType.LessEqual].contains token.token_type) with
    | none => .ok expression_node tokens
    | some (op_token, tokens₁) =>
      match BinaryOp.try_from op_token.token_type with
      | none => .fail (ParseError.illegal_token op_token)
      | some op =>
        (term fuel tokens₁).bind fun right tokens₂ =>
        let start_pos := expression_node.position.absolute
        let length := right.position.absolute + right.position.length - start_pos
        comparison_loop fuel
          (ExpressionNode.new (Expression.Binary expression_node right op)
            (Position.new start_pos length)) tokens₂
termination_by structural fuel => fuel

/-- term level of the precedence cascade. -/
def term : Nat → TokenIter → ParseOut ExpressionNode
  | 0, _ => .fuelOut
  | fuel + 1, tokens =>
    (factor fuel tokens).bind fun expression_node tokens₁ =>
    term_loop fuel expression_node tokens₁
termination_by structural fuel => fuel

/-- Operator loop of the term level. -/
def term_loop : Nat → ExpressionNode → TokenIter → ParseOut ExpressionNode
  | 0, _, _ => .fuelOut
  | fuel + 1, expression_node, tokens =>
    match tokens.next_if
        (fun token => [TokenType.Minus, TokenType.Plus].contains token.token_type) with
    | none => .ok expression_node tokens
    | some (op_token, tokens₁) =>
      match BinaryOp.try_from op_token.token_type with
      | none => .fail (ParseError.illegal_token op_token)
      | some op =>
        (factor fuel tokens₁).bind fun right tokens₂ =>
        let start_pos := expression_node.position.absolute
        let length := right.position.absolute + right.position.length - start_pos
        term_loop fuel
          (ExpressionNode.new (Expression.Binary expression_node right op)
            (Position.new start_pos length)) tokens₂
termination_by structural fuel => fuel

/-- factor level of the precedence cascade. -/
def factor : Nat → TokenIter → ParseOut ExpressionNode
  | 0, _ => .fuelOut
  | fuel + 1, tokens =>
    (unary fuel tokens).bind fun expression_node tokens₁ =>
    factor_loop fuel expression_node tokens₁
termination_by structural fuel => fuel

/-- Operator loop of the factor level. -/
def factor_loop : Nat → ExpressionNode → TokenIter → ParseOut ExpressionNode
  | 0, _, _ => .fuelOut
  | fuel + 1, expression_node, tokens =>
    match tokens.next_if
        (fun token => [TokenType.Slash, TokenType.Star].contains token.token_type) with
    | none => .ok expression_node tokens
    | some (op_token, tokens₁) =>
      match BinaryOp.try_from op_token.token_type with
      | none => .fail (ParseError.illegal_token op_token)
      | some op =>
        (unary fuel tokens₁).bind fun right tokens₂ =>
        let start_pos := expression_node.position.absolute
        let length := right.position.absolute + right.position.length - start_pos
        factor_loop fuel
          (ExpressionNode.new (Expression.Binary expression_node right op)
            (Position.new start_pos length)) tokens₂
termination_by structural fuel => fuel

/-- unary from parser.rs: `!`/`-` applied to a unary, positioned at the
operator token, else the call level.  The `try_into().unwrap()` cannot
fail on `!`/`-` but is modelled as a panic as in the source. -/
def unary : Nat → TokenIter → ParseOut ExpressionNode
  | 0, _ => .fuelOut
  | fuel + 1, tokens =>
    match tokens.next_if
        (fun token => token.token_type == TokenType.Bang || token.token_type == TokenType.Minus) with
    | some (token, tokens₁) =>
      match UnaryOp.try_from token.token_type with
      | none => .panicked
      | some op =>
        let position := token.position
        (unary fuel tokens₁).bind fun inner tokens₂ =>
        ParseOut.ok (ExpressionNode.new (Expression.Unary inner op) position) tokens₂
    | none => call fuel tokens
termination_by structural fuel => fuel

/-- call from parser.rs: a primary followed by any number of argument
lists. -/
def call : Nat → TokenIter → ParseOut ExpressionNode
  | 0, _ => .fuelOut
  | fuel + 1, tokens =>
    (primary fuel tokens).bind fun expr tokens₁ =>
    call_loop fuel expr tokens₁
termination_by structural fuel => fuel

/-- Call-suffix loop of `call` in parser.rs: each `(` begins an argument
list whose span accumulates by unioning the argument, comma and closing
parenthesis spans (an empty list keeps the `(` span only). -/
def call_loop : Nat → ExpressionNode → TokenIter → ParseOut ExpressionNode
  | 0, _, _ => .fuelOut
  | fuel + 1, expr, tokens =>
    match tokens.next_if (fun t => t.token_type == TokenType.LeftParent) with
    | none => .ok expr tokens
    | some (t, tokens₁) =>
      let position := t.position
      match tokens₁.next_if (fun tk => tk.token_type == TokenType.RightParent) with
      | some (_, tokens₂) =>
        call_loop fuel (ExpressionNode.raw (.Call expr []) position) tokens₂
      | none =>
        (call_args fuel tokens₁ position []).bind fun args_pos tokens₃ =>
        call_loop fuel (ExpressionNode.raw (.Call expr args_pos.1) args_pos.2) tokens₃
termination_by structural fuel => fuel

/-- Argument loop inside `call` in parser.rs. -/
def call_args : Nat → TokenIter → Position → List ExpressionNode → ParseOut (List ExpressionNode × Position)
  | 0, _, _, _ => .fuelOut
  | fuel + 1, tokens, position, arguments =>
    (expression fuel tokens).bind fun argument tokens₁ =>
    let position₁ := position.union argument.position
    let arguments₁ := arguments ++ [argument]
    if (tokens₁.peek.map fun t => t.token_type == TokenType.RightParent).getD false then
      match tokens₁.next with
      | some (rp, tokens₂) => .ok (arguments₁, position₁.union rp.position) tokens₂
      | none => .panicked
    else
      (consume tokens₁ .Comma).bind fun comma tokens₂ =>
      call_args fuel tokens₂ (position₁.union comma.position) arguments₁
termination_by structural fuel => fuel

/-- primary from parser.rs: literals, grouping (whose span stretches to
the closing parenthesis), variables; anything else is an IllegalToken. -/
def primary : Nat → TokenIter → ParseOut ExpressionNode
  | 0, _ => .fuelOut
  | fuel + 1, tokens =>
    match tokens.next with
    | none => .fail ParseError.unexpected_end_of_stream
    | some (token, tokens₁) =>
      let position := token.position
      match token.token_type with
      | .False => .ok (ExpressionNode.new (.Literal .FalseLit) position) tokens₁
      | .True => .ok (ExpressionNode.new (.Literal .TrueLit) position) tokens₁
      | .Nil => .ok (ExpressionNode.new (.Literal .NilLit) position) tokens₁
      | .Number value => .ok (ExpressionNode.new (.Literal (.NumberLit value)) position) tokens₁
      | .StringToken value =>
        .ok (ExpressionNode.new (.Literal (.StringLit value)) position) tokens₁
      | .LeftParent =>
        (expression fuel tokens₁).bind fun inner tokens₂ =>
        (consume_closing_delimiter tokens₂ .RightParent position).bind fun closing tokens₃ =>
        let position₁ := Position.new position.absolute
          (closing.position.end_position - position.absolute)
        ParseOut.ok (ExpressionNode.new (.Grouping inner) position₁) tokens₃
      | .Identifier identifier =>
        .ok (ExpressionNode.new (.Variable identifier) position) tokens₁
      | _ => .fail (ParseError.illegal_token token)
termination_by structural fuel => fuel

end

/-- parse from parser.rs.  `TokenIter::new` unwraps `tokens.last()`, so an
empty token list is a panic; `size` is one past the last token's span. -/
def parse (fuel : Nat) (tokens : List Token) : ParseOut (List Statement) :=
  match tokens.getLast? with
  | none => .panicked
  | some last_token =>
    parse_loop fuel ⟨tokens, last_token.position.absolute + last_token.position.length⟩ []

namespace Scanner

/-- Entry from the scanner's source iterator (the line/column-counting
generation the checked-in scanner/mod.rs destructures): a character with
its position counters.  Note this iterator advances `position` by one per
character, not by UTF-8 byte length. -/
structure Entry where
  value : Char
  position : Nat
  column : Nat
  line : Nat
deriving DecidableEq, Repr

/-- SourceIterator state: the full source (kept for `substring`), the
remaining characters, and the pos/line/column counters.  The Rust
`peek`/`peek_next` memoisation cells are behaviourally transparent and
are not modelled. -/
structure SourceIterator where
  source : List Char
  chars : List Char
  pos : Nat
  line : Nat
  column : Nat

/-- SourceIterator::new. -/
def SourceIterator.new (text : List Char) : SourceIterator :=
  ⟨text, text, 0, 0, 0⟩

/-- Iterator::next for SourceIterator: emit the entry at the current
counters, then advance (a newline resets the column and bumps the line). -/
def SourceIterator.next (s : SourceIterator) : Option (Entry × SourceIterator) :=
  match s.chars with
  | [] => none
  | c :: cs =>
    some (⟨c, s.pos, s.column, s.line⟩,
      if c = '\n' then ⟨s.source, cs, s.pos + 1, s.line + 1, 0⟩
      else ⟨s.source, cs, s.pos + 1, s.line, s.column + 1⟩)

/-- SourceIterator::peek. -/
def SourceIterator.peek (s : SourceIterator) : Option Char := s.chars.head?

/-- SourceIterator::peek_next. -/
def SourceIterator.peek_next (s : SourceIterator) : Option Char := s.chars.get? 1

/-- SourceIterator::next_match: advance only when the next character is
the expected one; returns the flag with the updated iterator. -/
def SourceIterator.next_match (s : SourceIterator) (expected : Char) : Bool × SourceIterator :=
  match s.peek with
  | some c =>
    if c = expected then
      match s.next with
      | some (_, s') => (true, s')
      | none => (false, s)
    else (false, s)
  | none => (false, s)

/-- SourceIterator::scan_until: consume through and including the first
occurrence of the target, or exhaust the iterator (`none`). -/
def scan_until_aux (source : List Char) : List Char → Nat → Nat → Nat → Char → Option Entry × SourceIterator
  | [], pos, line, column, _ => (none, ⟨source, [], pos, line, column⟩)
  | c :: cs, pos, line, column, target =>
    let e : Entry := ⟨c, pos, column, line⟩
    if c = target then
      (some e,
        if c = '\n' then ⟨source, cs, pos + 1, line + 1, 0⟩
        else ⟨source, cs, pos + 1, line, column + 1⟩)
    else if c = '\n' then scan_until_aux source cs (pos + 1) (line + 1) 0 target
    else scan_until_aux source cs (pos + 1) line (column + 1) target

/-- SourceIterator::scan_until entry point. -/
def SourceIterator.scan_until (s : SourceIterator) (target : Char) : Option Entry × SourceIterator :=
  scan_until_aux s.source s.chars s.pos s.line s.column target

/-- UTF-8 byte length of one character. -/
def charUtf8Size (c : Char) : Nat :=
  if c.toNat < 0x80 then 1
  else if c.toNat < 0x800 then 2
  else if c.toNat < 0x10000 then 3
  else 4

/-- Drop exactly `n` leading UTF-8 bytes from a character list; `none`
when `n` is not at a character boundary or past the end (a Rust string
slicing panic). -/
def dropBytes : List Char → Nat → Option (List Char)
  | l, 0 => some l
  | [], _ + 1 => none
  | c :: cs, n + 1 =>
    if charUtf8Size c ≤ n + 1 then dropBytes cs (n + 1 - charUtf8Size c) else none

/-- Take exactly `n` leading UTF-8 bytes from a character list; `none`
when `n` is not at a character boundary or past the end. -/
def takeBytes : List Char → Nat → Option (List Char)
  | _, 0 => some []
  | [], _ + 1 => none
  | c :: cs, n + 1 =>
    if charUtf8Size c ≤ n + 1 then (takeBytes cs (n + 1 - charUtf8Size c)).map (c :: ·) else none

/-- SourceIterator::substring: Rust `text[from..=to].to_string()` - a BYTE
slice of the source, panicking (`none`) when an index misses a character
boundary or the range is out of order or out of bounds.  The scanner
passes per-CHARACTER counter values as indices, so the two agree exactly
when every character before the slice end is single-byte (ASCII). -/
def substring (text : List Char) (start stop : Nat) : Option (List Char) :=
  if start ≤ stop + 1 then
    (dropBytes text start).bind (fun rest => takeBytes rest (stop + 1 - start))
  else none

/-- Token from the checked-in scanner/mod.rs: a token type (the same
variant set as token.rs, reused here) with line/column coordinates. -/
structure Token where
  token_type : TokenType
  line : Nat
  column : Nat
deriving DecidableEq, Repr

/-- Token::new from scanner/mod.rs. -/
def Token.new (token_type : TokenType) (line column : Nat) : Token :=
  ⟨token_type, line, column⟩

/-- Model of Rust `char::is_numeric` (Unicode categories Nd, Nl, No):
exact on ASCII (the decimal digits), extended with the Latin-1 vulgar
fraction codepoints U+00BC..U+00BE (category No), which are the only
non-ASCII numerics any theorem below touches (the panic counterexample
uses U+00BE); the rest of the Unicode table is not modelled, so every
other theorem that relies on this classifier carries an ASCII
hypothesis on the characters it classifies. -/
def char_is_numeric (c : Char) : Bool :=
  c.isDigit || c.toNat == 0xBC || c.toNat == 0xBD || c.toNat == 0xBE

/-- Model of Rust `char::is_alphanumeric` (alphabetic or numeric): exact
on ASCII; non-ASCII letters are not modelled, so every theorem that
relies on this classifier carries an ASCII hypothesis on the characters
it classifies. -/
def char_is_alphanumeric (c : Char) : Bool :=
  c.isAlpha || char_is_numeric c

/-- Digit run to a natural number. -/
def digitsToNat (l : List Char) : Nat :=
  l.foldl (fun acc c => 10 * acc + (c.toNat - 48)) 0

/-- Model of Rust `str::parse::<f64>` restricted to the lexeme shapes
`scan_number` can produce: one or more ASCII digits optionally followed
by `.` and one or more ASCII digits parse exactly; anything else
(in particular any non-ASCII numeral such as `¾`, which Rust's f64
parser rejects) is `none`.  Shapes like `5.` that Rust would accept are
unreachable from `scan_number` and are not modelled. -/
def rustParseF64 (l : List Char) : Option ℚ :=
  let intPart := l.takeWhile Char.isDigit
  let rest := l.dropWhile Char.isDigit
  if intPart.isEmpty then none
  else
    match rest with
    | [] => some (digitsToNat intPart : ℚ)
    | '.' :: frac =>
      if !frac.isEmpty && frac.all Char.isDigit then
        some ((digitsToNat intPart : ℚ) + (digitsToNat frac : ℚ) / (10 ^ frac.length : ℚ))
      else none
    | _ => none

/-- Loop of scan_number in scanner/mod.rs: consume digits, and a dot when
it is not the second dot and a digit follows; track the last consumed
entry. -/
def scan_number_loop (source : List Char) : List Char → Nat → Nat → Nat → Bool → Entry → Entry × SourceIterator
  | [], pos, line, column, _, last_entry => (last_entry, ⟨source, [], pos, line, column⟩)
  | c :: cs, pos, line, column, found_dot, last_entry =>
    if char_is_numeric c then
      scan_number_loop source cs (pos + 1) line (column + 1) found_dot ⟨c, pos, column, line⟩
    else if c = '.' && !found_dot && (cs.head?.elim false char_is_numeric) then
      scan_number_loop source cs (pos + 1) line (column + 1) true ⟨c, pos, column, line⟩
    else (last_entry, ⟨source, c :: cs, pos, line, column⟩)

/-- scan_number from scanner/mod.rs: run the digit loop, slice the lexeme
out of the source and `parse::<f64>().unwrap()` it (`none` models the
panic of the slice or of the unwrap). -/
def scan_number (s : SourceIterator) (first_entry : Entry) : Option (Token × SourceIterator) :=
  let r := scan_number_loop s.source s.chars s.pos s.line s.column false first_entry
  match substring s.source first_entry.position r.1.position with
  | none => none
  | some lexeme =>
    match rustParseF64 lexeme with
    | none => none
    | some value =>
      some (Token.new (.Number value) first_entry.line first_entry.column, r.2)

/-- Loop of scan_identifier in scanner/mod.rs: consume alphanumerics,
tracking the last consumed entry. -/
def scan_identifier_loop (source : List Char) : List Char → Nat → Nat → Nat → Entry → Entry × SourceIterator
  | [], pos, line, column, last_entry => (last_entry, ⟨source, [], pos, line, column⟩)
  | c :: cs, pos, line, column, last_entry =>
    if !char_is_alphanumeric c then (last_entry, ⟨source, c :: cs, pos, line, column⟩)
    else scan_identifier_loop source cs (pos + 1) line (column + 1) ⟨c, pos, column, line⟩

/-- Keyword table of scan_identifier in scanner/mod.rs. -/
def keyword_or_identifier (value : List Char) : TokenType :=
  let v := String.mk value
  if v = "and" then .And
  else if v = "class" then .Class
  else if v = "else" then .Else
  else if v = "false" then .False
  else if v = "for" then .For
  else if v = "fun" then .Fun
  else if v = "if" then .If
  else if v = "nil" then .Nil
  else if v = "or" then .Or
  else if v = "print" then .Print
  else if v = "return" then .Return
  else if v = "super" then .Super
  else if v = "this" then .This
  else if v = "true" then .True
  else if v = "var" then .Var
  else if v = "while" then .While
  else .Identifier v

/-- scan_identifier from scanner/mod.rs. -/
def scan_identifier (s : SourceIterator) (first_entry : Entry) : Option (Token × SourceIterator) :=
  let r := scan_identifier_loop s.source s.chars s.pos s.line s.column first_entry
  match substring s.source first_entry.position r.1.position with
  | none => none
  | some value =>
    some (Token.new (keyword_or_identifier value) first_entry.line first_entry.column, r.2)

/-- scan_string from scanner/mod.rs: consume through the closing quote
(`Err "Unterminated String"` when the iterator is exhausted first); the
token's value is the source slice between the quotes. -/
def scan_string (s : SourceIterator) (first_entry : Entry) : Option (Except String (Token × SourceIterator)) :=
  let r := s.scan_until '"'
  match r.1 with
  | none => some (.error "Unterminated String")
  | some entry =>
    match substring s.source (first_entry.position + 1) (entry.position - 1) with
    | none => none
    | some value =>
      some (.ok (Token.new (.StringToken (String.mk value)) first_entry.line first_entry.column, r.2))

/-- Outcome of Scanner::scan: the token vector together with the
diagnostic lines printed on the way, a panic, or fuel exhaustion (a model
artifact; `scan_loop_ne_fuelOut` below shows it is unreachable). -/
inductive ScanOut where
  | done (tokens : List Token) (diagnostics : List String)
  | panicked
  | fuelOut
deriving DecidableEq, Repr

/-- Main loop of Scanner::scan from scanner/mod.rs. -/
def scan_loop : Nat → SourceIterator → List Token → List String → ScanOut
  | 0, _, _, _ => .fuelOut
  | fuel + 1, source_iter, tokens, diags =>
    match source_iter.next with
    | none => .done tokens diags
    | some (e, s₁) =>
      match e.value with
      | '(' => scan_loop fuel s₁ (tokens ++ [Token.new .LeftParent e.line e.column]) diags
      | ')' => scan_loop fuel s₁ (tokens ++ [Token.new .RightParent e.line e.column]) diags
      | '{' => scan_loop fuel s₁ (tokens ++ [Token.new .LeftBrace e.line e.column]) diags
      | '}' => scan_loop fuel s₁ (tokens ++ [Token.new .RightBrace e.line e.column]) diags
      | ',' => scan_loop fuel s₁ (tokens ++ [Token.new .Comma e.line e.column]) diags
      | '.' => scan_loop fuel s₁ (tokens ++ [Token.new .Dot e.line e.column]) diags
      | '-' => scan_loop fuel s₁ (tokens ++ [Token.new .Minus e.line e.column]) diags
      | '+' => scan_loop fuel s₁ (tokens ++ [Token.new .Plus e.line e.column]) diags
      | ';' => scan_loop fuel s₁ (tokens ++ [Token.new .Semicolon e.line e.column]) diags
      | '*' => scan_loop fuel s₁ (tokens ++ [Token.new .Star e.line e.column]) diags
      | '!' =>
        let m := s₁.next_match '='
        scan_loop fuel m.2
          (tokens ++ [Token.new (if m.1 then .BangEqual else .Bang) e.line e.column]) diags
      | '=' =>
        let m := s₁.next_match '='
        scan_loop fuel m.2
          (tokens ++ [Token.new (if m.1 then .EqualEqual else .Equal) e.line e.column]) diags
      | '<' =>
        let m := s₁.next_match '='
        scan_loop fuel m.2
          (tokens ++ [Token.new (if m.1 then .LessEqual else .Less) e.line e.column]) diags
      | '>' =>
        let m := s₁.next_match '='
        scan_loop fuel m.2
          (tokens ++ [Token.new (if m.1 then .GreaterEqual else .Greater) e.line e.column]) diags
      | '/' =>
        let m := s₁.next_match '/'
        if m.1 then
          let r := m.2.scan_until '\n'
          scan_loop fuel r.2 tokens diags
        else
          scan_loop fuel m.2 (tokens ++ [Token.new .Slash e.line e.column]) diags
      | ' ' => scan_loop fuel s₁ tokens diags
      | '\r' => scan_loop fuel s₁ tokens diags
      | '\t' => scan_loop fuel s₁ tokens diags
      | '\n' => scan_loop fuel s₁ tokens diags
      | '"' =>
        match scan_string s₁ e with
        | none => .panicked
        | some (.error msg) => .done tokens (diags ++ ["Error!: " ++ msg])
        | some (.ok (tok, s₂)) => scan_loop fuel s₂ (tokens ++ [tok]) diags
      | c =>
        if char_is_numeric c then
          match scan_number s₁ e with
          | none => .panicked
          | some (tok, s₂) => scan_loop fuel s₂ (tokens ++ [tok]) diags
        else if char_is_alphanumeric c then
          match scan_identifier s₁ e with
          | none => .panicked
          | some (tok, s₂) => scan_loop fuel s₂ (tokens ++ [tok]) diags
        else
          .done tokens
            (diags ++ ["Error!: Unrecognized Character '" ++ String.singleton c ++ "'"])

/-- Scanner::scan from scanner/mod.rs: run the loop over the whole
source.  Every iteration consumes at least one character, so
`length + 1` fuel always suffices (proved below as `scan_loop_ne_fuelOut`). -/
def scan (code : String) : ScanOut :=
  scan_loop (code.toList.length + 1) (SourceIterator.new code.toList) [] []

/-- Well-formed iterator state: an all-ASCII source and the remaining
characters forming exactly the source suffix at the current position.
This is the invariant under which the byte-indexed `substring` agrees
with the scanner's character counters. -/
def GoodIter (it : SourceIterator) : Prop :=
  (∀ c ∈ it.source, c.toNat < 128) ∧ it.chars = it.source.drop it.pos

end Scanner

/-- Behaviour of `main` from main.rs, modelled up to the dispatch on the
command-line argument count (`args` is the argument vector after
`skip(1)` removes the program name).  The file/REPL execution paths are
`IO` and are represented only by which one is taken. -/
inductive MainBehavior where
  | usageExit (stdout : List String) (stderr : List String) (code : Nat)
  | runsFile (file : String)
  | runsRepl
deriving DecidableEq, Repr

/-- main from main.rs: with two or more arguments it prints the usage
line with `println!` (stdout, not stderr) and exits with code 64 before
reading or running anything; one argument runs that file; none opens the
REPL. -/
def lox_main (args : List String) : MainBehavior :=
  match args with
  | [] => .runsRepl
  | [file] => .runsFile file
  | _ :: _ :: _ => .usageExit ["Usage: lox [script]"] [] 64

/-!
Scenario plumbing.  The end-to-end scenarios below feed the parser a
hand-transcribed token list (one token per lexeme of the claim's source
program) and evaluate the result in a fresh environment, exactly as
`run` in main.rs does after scanning.  The token positions are synthetic
`(index, 1)` spans; the parser and evaluator consult positions only to
build error spans, none of which these scenarios exercise.
-/

/-- Attach synthetic `(index, 1)` positions to a list of token types. -/
def tokensOf (ts : List TokenType) : List Token :=
  ((List.range ts.length).zip ts).map fun it => ⟨it.2, Position.new it.1 1⟩

/-- Parse a token list and evaluate it in a fresh environment (the
composition `run` in main.rs performs after scanning); `none` when the
parse fails or fuel runs out. -/
def run_tokens (fuel : Nat) (tokens : List Token) : Option (EvaluationResult Value × Interp) :=
  match parse fuel tokens with
  | .ok stmts _ => evaluate fuel stmts 0 ⟨[Environment.empty], []⟩
  | _ => none

/-- Printed lines of a run. -/
def run_output (fuel : Nat) (tokens : List Token) : Option (List String) :=
  (run_tokens fuel tokens).map fun r => r.2.output

/-- Token transcription of
`fun mk() { var x = 0; fun inc() { x = x + 1; return x; } return inc; }
var c = mk(); print c(); print c();` (the closure-counter scenario). -/
def counterTokens : List Token := tokensOf
  [.Fun, .Identifier "mk", .LeftParent, .RightParent, .LeftBrace,
     .Var, .Identifier "x", .Equal, .Number 0, .Semicolon,
     .Fun, .Identifier "inc", .LeftParent, .RightParent, .LeftBrace,
       .Identifier "x", .Equal, .Identifier "x", .Plus, .Number 1, .Semicolon,
       .Return, .Identifier "x", .Semicolon,
     .RightBrace,
     .Return, .Identifier "inc", .Semicolon,
   .RightBrace,
   .Var, .Identifier "c", .Equal, .Identifier "mk", .LeftParent, .RightParent, .Semicolon,
   .Print, .Identifier "c", .LeftParent, .RightParent, .Semicolon,
   .Print, .Identifier "c", .LeftParent, .RightParent, .Semicolon]

/-- Token transcription of
`fun add(a, b) { return a + b; } print add(2, 40);`. -/
def addTokens : List Token := tokensOf
  [.Fun, .Identifier "add", .LeftParent, .Identifier "a", .Comma, .Identifier "b", .RightParent,
   .LeftBrace, .Return, .Identifier "a", .Plus, .Identifier "b", .Semicolon, .RightBrace,
   .Print, .Identifier "add", .LeftParent, .Number 2, .Comma, .Number 40, .RightParent, .Semicolon]

/-- Token transcription of `var x = 1; print x = 2; print x;`. -/
def assignScenarioTokens : List Token := tokensOf
  [.Var, .Identifier "x", .Equal, .Number 1, .Semicolon,
   .Print, .Identifier "x", .Equal, .Number 2, .Semicolon,
   .Print, .Identifier "x", .Semicolon]

/-- Token transcription of `fun f(a) { } print f();` - a call with zero
arguments against a one-parameter function. -/
def arityTokens : List Token := tokensOf
  [.Fun, .Identifier "f", .LeftParent, .Identifier "a", .RightParent, .LeftBrace, .RightBrace,
   .Print, .Identifier "f", .LeftParent, .RightParent, .Semicolon]

/-- Concrete expression `true and 3` (spans as in the source text). -/
def trueAndThree : ExpressionNode :=
  .mk (.Logical (.mk (.Literal .TrueLit) (Position.new 0 4))
      (.mk (.Literal (.NumberLit 3)) (Position.new 9 1)) .And)
    (Position.new 0 10)

/-- Token transcription of `print "abc" * 3;`. -/
def strMulTokens : List Token := tokensOf
  [.Print, .StringToken "abc", .Star, .Number 3, .Semicolon]

/-- Token transcription of the claim's scenario
`for (var i = 0; i < 3; i = i + 1) print i;` - the parenthesised loop
header the spec describes. -/
def forParenTokens : List Token := tokensOf
  [.For, .LeftParent, .Var, .Identifier "i", .Equal, .Number 0, .Semicolon,
   .Identifier "i", .Less, .Number 3, .Semicolon,
   .Identifier "i", .Equal, .Identifier "i", .Plus, .Number 1, .RightParent,
   .Print, .Identifier "i", .Semicolon]

/-- Token transcription of the paren-less loop the parser actually
accepts: `for var i = 0; i < 3; i = i + 1; print i;`. -/
def forTokens : List Token := tokensOf
  [.For, .Var, .Identifier "i", .Equal, .Number 0, .Semicolon,
   .Identifier "i", .Less, .Number 3, .Semicolon,
   .Identifier "i", .Equal, .Identifier "i", .Plus, .Number 1, .Semicolon,
   .Print, .Identifier "i", .Semicolon]

/-- Parsed initializer of the witness loop: `var i = 0;`. -/
def forInit : Statement :=
  .Var "i" (some (ExpressionNode.new (.Literal (.NumberLit 0)) (Position.new 4 1)))

/-- Parsed condition of the witness loop: `i < 3`. -/
def forCond : ExpressionNode :=
  ExpressionNode.new
    (.Binary (ExpressionNode.new (.Variable "i") (Position.new 6 1))
      (ExpressionNode.new (.Literal (.NumberLit 3)) (Position.new 8 1)) .LessThan)
    (Position.new 6 3)

/-- Parsed increment of the witness loop: `i = i + 1`. -/
def forInc : ExpressionNode :=
  ExpressionNode.new
    (.Assignment "i"
      (ExpressionNode.new
        (.Binary (ExpressionNode.new (.Variable "i") (Position.new 12 1))
          (ExpressionNode.new (.Literal (.NumberLit 1)) (Position.new 14 1)) .Add)
        (Position.new 12 3)))
    (Position.new 10 5)

/-- Parsed body of the witness loop: `print i;`. -/
def forBody : Statement :=
  .Print (ExpressionNode.new (.Variable "i") (Position.new 17 1))

/-- Index of the innermost scope in the parent chain from `id` whose map
contains `key` (the scope the source's get reads and assign writes),
following the same parent-walk and fuel discipline as the source. -/
def innermost_definingAux (σ : List Scope) : Nat → Nat → String → Option Nat
  | 0, _, _ => none
  | fuel + 1, id, key =>
    match σ[id]? with
    | none => none
    | some s =>
      if varsContains s.vars key then some id
      else
        match s.parent with
        | some p => innermost_definingAux σ fuel p key
        | none => none

/-- Entry point with the store-size fuel the source functions use. -/
def innermost_defining (σ : List Scope) (id : Nat) (key : String) : Option Nat :=
  innermost_definingAux σ σ.length id key

/-- Character classes the scan loop recognises: the single- and
two-character token heads, whitespace, the comment/slash head, the
string quote, and the numeric/alphanumeric heads. -/
def recognized (c : Char) : Bool :=
  c ∈ ['(', ')', '{', '}', ',', '.', '-', '+', ';', '*',
       '!', '=', '<', '>', '/', ' ', '\r', '\t', '\n', '"'] ||
  Scanner.char_is_numeric c || Scanner.char_is_alphanumeric c

/-- C1: application binds the parameters positionally into a fresh scope
whose parent is the environment the function captured at its definition
site - the caller's environment plays no part - and the closure-counter
scenario prints `1` then `2`.

The first conjunct is the defining equation of `FunctionContainer.call`
(callable.rs): the call allocates one fresh scope whose parent link is
`self.closure` (`Environment.wrap self.closure`), registers the
parameters positionally against the arguments, and evaluates the body
there; no caller environment index occurs anywhere in the right-hand
side.  The `Function`-definition arm capturing the current environment
is modelled from the spec (see `evaluate_statement`), and the scenario
run below exercises it end to end. -/
theorem claim_C1 :
    (∀ (fuel : Nat) (self : FunctionContainer) (arguments : List ValueNode) (st : Interp),
      FunctionContainer.call (fuel + 1) self arguments st =
        evaluate_statement fuel self.body st.store.length
          { st with store := st.store ++
              [(self.parameters.zip arguments).foldl
                (fun e kv => e.register kv.1 (some kv.2.value))
                (Environment.wrap self.closure)] }) ∧
    (∀ parent : Nat, (Environment.wrap parent).parent = some parent) ∧
    run_output 100 counterTokens = some ["1", "2"] := by
  refine ⟨fun fuel self arguments st => rfl, fun parent => rfl, ?_⟩
  with_unfolding_all rfl

/-- C2: a `return` statement evaluates its optional expression (`Nil`
when absent) and raises the `Return` signal on the evaluator's result
channel; `ValueNode::call` (value.rs) converts that signal into the
call's normal result; and `fun add(a, b) { return a + b; }
print add(2, 40);` prints `42`.

The first two conjuncts are the defining equations of the (spec-modelled)
`Return` arm of `evaluate_statement`; the third is the conversion
equation of `ValueNode.call` from value.rs; the last is the end-to-end
scenario. -/
theorem claim_C2 :
    (∀ (fuel : Nat) (e : ExpressionNode) (env : Nat) (st : Interp),
      evaluate_statement (fuel + 1) (.Return (some e)) env st =
        match evaluate_expression fuel e env st with
        | none => none
        | some (.error err, st') => some (.error err, st')
        | some (.ok v, st') => some (.error (.Return v.value), st')) ∧
    (∀ (fuel : Nat) (env : Nat) (st : Interp),
      evaluate_statement (fuel + 1) (.Return none) env st =
        some (.error (.Return .Nil), st)) ∧
    (∀ (fuel : Nat) (container : FunctionContainer) (position : Position)
        (arguments : List ValueNode) (st : Interp),
      ValueNode.call (fuel + 1) ⟨.Function container, position⟩ arguments st =
        match FunctionContainer.call fuel container arguments st with
        | none => none
        | some (.ok v, st') => some (.ok v, st')
        | some (.error (.Return r), st') => some (.ok r, st')
        | some (.error (.Error err), st') => some (.error (.Error err), st')) ∧
    run_output 100 addTokens = some ["42"] := by
  refine ⟨fun fuel e env st => rfl, fun fuel env st => rfl,
    fun fuel container position arguments st => rfl, ?_⟩
  with_unfolding_all rfl

/-- C10: an assignment expression stores the evaluated right-hand side
through `Environment::assign` (which replaces the binding in the
innermost defining scope - see `claim_C8`) but the expression itself
evaluates to `Nil`, not to the assigned value.

The first conjunct is the defining equation of the `Assignment` arm of
`evaluate_expression` (evaluation.rs): on a successful assign the arm
yields `ValueNode.new .Nil position`.  The scenario
`var x = 1; print x = 2; print x;` prints `Nil` (the assignment's value)
and then `2` (the stored value). -/
theorem claim_C10 :
    (∀ (fuel : Nat) (name : String) (value : ExpressionNode) (env : Nat)
        (st : Interp) (position : Position),
      evaluate_expression (fuel + 1) (.mk (.Assignment name value) position) env st =
        match evaluate_expression fuel value env st with
        | none => none
        | some (.error e, st') => some (.error e, st')
        | some (.ok v, st') =>
          match (Environment.assign st'.store env name v.value).1 with
          | true => some (.ok (ValueNode.new .Nil position),
              { st' with store := (Environment.assign st'.store env name v.value).2 })
          | false => some (.error (.Error (RuntimeError.unknown_identifier name position)), st')) ∧
    run_output 100 assignScenarioTokens = some ["Nil", "2"] := by
  refine ⟨fun fuel name value env st position => rfl, ?_⟩
  with_unfolding_all rfl

/-- C3 counterexample: calling the one-parameter function `f` with zero
arguments does NOT raise a TypeError (or any error): `fun f(a) { }
print f();` completes normally and prints `Nil`.  No function in the
snapshot compares the argument count against the parameter count; the
`zip` in `Callable::call` silently binds up to the shorter list. -/
theorem claim_C3_counterexample :
    (run_tokens 100 arityTokens).map
      (fun r => ((match r.1 with | .ok _ => true | .error _ => false), r.2.output)) =
      some (true, ["Nil"]) := by
  with_unfolding_all rfl

/-- C3 as amended: calling a value that is not a function raises a
TypeError (expecting "Callable") and produces no normal value, exactly
as value.rs does; argument and parameter counts, however, are never
compared - `Callable::call` binds parameters pairwise with the arguments
up to the shorter of the two lists (extra arguments are ignored, extra
parameters stay unregistered). -/
theorem claim_C3 :
    (∀ (fuel : Nat) (self : ValueNode) (arguments : List ValueNode) (st : Interp),
      (∀ f, self.value ≠ Value.Function f) →
      ValueNode.call (fuel + 1) self arguments st =
        some (.error (.Error (RuntimeError.type_error self "Callable")), st)) ∧
    (∀ (fuel : Nat) (self : FunctionContainer) (arguments : List ValueNode) (st : Interp),
      FunctionContainer.call (fuel + 1) self arguments st =
        evaluate_statement fuel self.body st.store.length
          { st with store := st.store ++
              [(self.parameters.zip arguments).foldl
                (fun e kv => e.register kv.1 (some kv.2.value))
                (Environment.wrap self.closure)] }) := by
  constructor
  · intro fuel self arguments st h
    match hs : self with
    | ⟨v, position⟩ =>
      cases v with
      | Function f => exact absurd rfl (h f)
      | Nil => rfl
      | Boolean b => rfl
      | Number n => rfl
      | Str s => rfl
  · intro fuel self arguments st
    rfl

/-- C3 witness: the amended theorem applied at a concrete non-function
callee (the number 1 called with no arguments). -/
theorem claim_C3_witness :
    ValueNode.call 1 ⟨.Number 1, Position.new 0 1⟩ [] ⟨[], []⟩ =
      some (.error (.Error (RuntimeError.type_error ⟨.Number 1, Position.new 0 1⟩ "Callable")),
        ⟨[], []⟩) :=
  claim_C3.1 0 ⟨.Number 1, Position.new 0 1⟩ [] ⟨[], []⟩ (fun f h => by cases h)

/-- C5 counterexample: `true and 3` evaluates to `Number 3`, not to a
boolean - the `Logical` arm returns the right operand's value unchanged
when the left operand is truthy, with no coercion and no type check of
the right operand. -/
theorem claim_C5_counterexample :
    evaluate_expression 10 trueAndThree 0 ⟨[Environment.empty], []⟩ =
      some (.ok (ValueNode.new (.Number 3) (Position.new 0 10)), ⟨[Environment.empty], []⟩) ∧
    (fun v => match v with | Value.Boolean _ => true | _ => false) (Value.Number 3) = false := by
  constructor
  · with_unfolding_all rfl
  · rfl

/-- C5 as amended: for `a and b`, a falsy `a` yields `Boolean false`
without evaluating `b`, and a truthy `a` yields the value of `b`
unchanged (not coerced to a boolean); for `a or b`, a truthy `a` yields
`Boolean true` without evaluating `b`, and a falsy `a` yields the value
of `b` unchanged; truthiness of the LEFT operand raises a TypeError on
non-boolean, non-nil values (the right operand is never checked).

The first two conjuncts are the defining equations of the `Logical` arm
of `evaluate_expression` (evaluation.rs); `b` occurs in the right-hand
side only under the truthy (resp. falsy) branch of `a`.  The last
conjunct is the truthiness TypeError of `ValueNode::as_boolean`. -/
theorem claim_C5 :
    (∀ (fuel : Nat) (l r : ExpressionNode) (env : Nat) (st : Interp) (position : Position),
      evaluate_expression (fuel + 1) (.mk (.Logical l r .And) position) env st =
        match evaluate_expression fuel l env st with
        | none => none
        | some (.error e, st') => some (.error e, st')
        | some (.ok left_value, st') =>
          match left_value.as_boolean with
          | .error e => some (.error e, st')
          | .ok false => some (.ok (ValueNode.new (.Boolean false) position), st')
          | .ok true =>
            match evaluate_expression fuel r env st' with
            | none => none
            | some (.error e, st'') => some (.error e, st'')
            | some (.ok right_value, st'') =>
              some (.ok (ValueNode.new right_value.value position), st'')) ∧
    (∀ (fuel : Nat) (l r : ExpressionNode) (env : Nat) (st : Interp) (position : Position),
      evaluate_expression (fuel + 1) (.mk (.Logical l r .Or) position) env st =
        match evaluate_expression fuel l env st with
        | none => none
        | some (.error e, st') => some (.error e, st')
        | some (.ok left_value, st') =>
          match left_value.as_boolean with
          | .error e => some (.error e, st')
          | .ok true => some (.ok (ValueNode.new (.Boolean true) position), st')
          | .ok false =>
            match evaluate_expression fuel r env st' with
            | none => none
            | some (.error e, st'') => some (.error e, st'')
            | some (.ok right_value, st'') =>
              some (.ok (ValueNode.new right_value.value position), st'')) ∧
    (∀ (v : Value) (position : Position), (∀ b, v ≠ .Boolean b) → v ≠ .Nil →
      ValueNode.as_boolean ⟨v, position⟩ =
        .error (.Error (RuntimeError.type_error ⟨v, position⟩ "Boolean"))) := by
  refine ⟨fun fuel l r env st position => rfl, fun fuel l r env st position => rfl, ?_⟩
  intro v position hb hn
  cases v with
  | Boolean b => exact absurd rfl (hb b)
  | Nil => exact absurd rfl hn
  | Number n => rfl
  | Str s => rfl
  | Function f => rfl

/-- C5 witness: the amended theorem applied at fuel 10, the operands of
`trueAndThree`, and the non-boolean truthiness input `Number 3`. -/
theorem claim_C5_witness :
    (evaluate_expression 11 trueAndThree 0 ⟨[Environment.empty], []⟩ =
      match evaluate_expression 10 (.mk (.Literal .TrueLit) (Position.new 0 4)) 0
          ⟨[Environment.empty], []⟩ with
      | none => none
      | some (.error e, st') => some (.error e, st')
      | some (.ok left_value, st') =>
        match left_value.as_boolean with
        | .error e => some (.error e, st')
        | .ok false =>
          some (.ok (ValueNode.new (.Boolean false) (Position.new 0 10)), st')
        | .ok true =>
          match evaluate_expression 10 (.mk (.Literal (.NumberLit 3)) (Position.new 9 1)) 0 st' with
          | none => none
          | some (.error e, st'') => some (.error e, st'')
          | some (.ok right_value, st'') =>
            some (.ok (ValueNode.new right_value.value (Position.new 0 10)), st'')) ∧
    ValueNode.as_boolean ⟨.Number 3, Position.new 9 1⟩ =
      .error (.Error (RuntimeError.type_error ⟨.Number 3, Position.new 9 1⟩ "Boolean")) :=
  ⟨claim_C5.1 10 (.mk (.Literal .TrueLit) (Position.new 0 4))
      (.mk (.Literal (.NumberLit 3)) (Position.new 9 1)) 0 ⟨[Environment.empty], []⟩
      (Position.new 0 10),
   claim_C5.2.2 (.Number 3) (Position.new 9 1) (fun b h => by cases h) (fun h => by cases h)⟩

/-- C6: multiplying a string by a number repeats the string `k` times
where `k` is the number truncated toward zero and clamped to
non-negative; `-`, `*`, `/` otherwise require numeric operands (`*` also
accepting a string left operand) and raise a TypeError on anything else;
and `print "abc" * 3;` prints `abcabcabc`.

Conjuncts: the string-repetition equation of `ValueNode::multiply`
(value.rs); the clamp (`k = 0` for negative numbers) and the truncation
(`k = ⌊q⌋`, which for non-negative `q` is truncation toward zero) of the
`as usize` cast; the TypeError cases of `subtract`, `multiply` and
`divide`; and the scenario run. -/
theorem claim_C6 :
    (∀ (s : String) (q : ℚ) (p₁ p₂ : Position),
      ValueNode.multiply ⟨.Str s, p₁⟩ ⟨.Number q, p₂⟩ =
        .ok (.Str (strRepeat s (ratAsUsize q)))) ∧
    (∀ q : ℚ, q < 0 → ratAsUsize q = 0) ∧
    (∀ q : ℚ, 0 ≤ q → (ratAsUsize q : ℤ) = q.floor) ∧
    (∀ (v w : Value) (p₁ p₂ : Position), (∀ n, v ≠ .Number n) →
      ValueNode.subtract ⟨v, p₁⟩ ⟨w, p₂⟩ =
        .error (.Error (RuntimeError.type_error ⟨v, p₁⟩ "Number"))) ∧
    (∀ (n : ℚ) (w : Value) (p₁ p₂ : Position), (∀ m, w ≠ .Number m) →
      ValueNode.subtract ⟨.Number n, p₁⟩ ⟨w, p₂⟩ =
        .error (.Error (RuntimeError.type_error ⟨w, p₂⟩ "Number"))) ∧
    (∀ (v w : Value) (p₁ p₂ : Position),
      (∀ n, v ≠ .Number n) → (∀ s, v ≠ .Str s) →
      ValueNode.multiply ⟨v, p₁⟩ ⟨w, p₂⟩ =
        .error (.Error (RuntimeError.type_error ⟨v, p₁⟩ "Number or String"))) ∧
    (∀ (n : ℚ) (w : Value) (p₁ p₂ : Position), (∀ m, w ≠ .Number m) →
      ValueNode.multiply ⟨.Number n, p₁⟩ ⟨w, p₂⟩ =
        .error (.Error (RuntimeError.type_error ⟨w, p₂⟩ "Number"))) ∧
    (∀ (s : String) (w : Value) (p₁ p₂ : Position), (∀ m, w ≠ .Number m) →
      ValueNode.multiply ⟨.Str s, p₁⟩ ⟨w, p₂⟩ =
        .error (.Error (RuntimeError.type_error ⟨w, p₂⟩ "Number"))) ∧
    (∀ (v w : Value) (p₁ p₂ : Position), (∀ n, v ≠ .Number n) →
      ValueNode.divide ⟨v, p₁⟩ ⟨w, p₂⟩ =
        .error (.Error (RuntimeError.type_error ⟨v, p₁⟩ "Number"))) ∧
    (∀ (n : ℚ) (w : Value) (p₁ p₂ : Position), (∀ m, w ≠ .Number m) →
      ValueNode.divide ⟨.Number n, p₁⟩ ⟨w, p₂⟩ =
        .error (.Error (RuntimeError.type_error ⟨w, p₂⟩ "Number"))) ∧
    run_output 100 strMulTokens = some ["abcabcabc"] := by
  refine ⟨fun s q p₁ p₂ => rfl, ?_, ?_, ?_, ?_, ?_, ?_, ?_, ?_, ?_, ?_⟩
  · intro q hq
    have h0 : ¬ ((0 : ℤ) ≤ q.floor) := by
      intro hge
      have hc : ((0 : ℤ) : ℚ) ≤ q := Rat.le_floor.mp hge
      rw [Int.cast_zero] at hc
      exact absurd hc (not_le.mpr hq)
    unfold ratAsUsize
    omega
  · intro q hq
    have h0 : (0 : ℤ) ≤ q.floor := Rat.le_floor.mpr (by rw [Int.cast_zero]; exact hq)
    unfold ratAsUsize
    omega
  · intro v w p₁ p₂ h
    cases v with
    | Number n => exact absurd rfl (h n)
    | Nil => rfl
    | Boolean b => rfl
    | Str s => rfl
    | Function f => rfl
  · intro n w p₁ p₂ h
    cases w with
    | Number m => exact absurd rfl (h m)
    | Nil => rfl
    | Boolean b => rfl
    | Str s => rfl
    | Function f => rfl
  · intro v w p₁ p₂ hn hs
    cases v with
    | Number n => exact absurd rfl (hn n)
    | Str s => exact absurd rfl (hs s)
    | Nil => rfl
    | Boolean b => rfl
    | Function f => rfl
  · intro n w p₁ p₂ h
    cases w with
    | Number m => exact absurd rfl (h m)
    | Nil => rfl
    | Boolean b => rfl
    | Str s => rfl
    | Function f => rfl
  · intro s w p₁ p₂ h
    cases w with
    | Number m => exact absurd rfl (h m)
    | Nil => rfl
    | Boolean b => rfl
    | Str s => rfl
    | Function f => rfl
  · intro v w p₁ p₂ h
    cases v with
    | Number n => exact absurd rfl (h n)
    | Nil => rfl
    | Boolean b => rfl
    | Str s => rfl
    | Function f => rfl
  · intro n w p₁ p₂ h
    cases w with
    | Number m => exact absurd rfl (h m)
    | Nil => rfl
    | Boolean b => rfl
    | Str s => rfl
    | Function f => rfl
  · with_unfolding_all rfl

/-- C6 witness: the theorem's conjuncts applied at concrete inputs -
`"abc" * 3`, the negative and positive casts, and `1 - "a"`. -/
theorem claim_C6_witness :
    ValueNode.multiply ⟨.Str "abc", Position.new 6 5⟩ ⟨.Number 3, Position.new 14 1⟩ =
      .ok (.Str (strRepeat "abc" (ratAsUsize 3))) ∧
    ratAsUsize (-2) = 0 ∧
    (ratAsUsize 3 : ℤ) = (3 : ℚ).floor ∧
    ValueNode.subtract ⟨.Str "a", Position.new 0 3⟩ ⟨.Number 1, Position.new 4 1⟩ =
      .error (.Error (RuntimeError.type_error ⟨.Str "a", Position.new 0 3⟩ "Number")) :=
  ⟨claim_C6.1 "abc" 3 (Position.new 6 5) (Position.new 14 1),
   claim_C6.2.1 (-2) (by norm_num),
   claim_C6.2.2.1 3 (by norm_num),
   claim_C6.2.2.2.1 (.Str "a") (.Number 1) (Position.new 0 3) (Position.new 4 1)
     (fun n h => by cases h)⟩

/-- C9 counterexample: invoked with the two arguments `a b`, main prints
the usage line with `println!` - that is, to STDOUT - and exits 64; the
stderr channel stays empty, contradicting the claim that the usage line
goes to stderr. -/
theorem claim_C9_counterexample :
    lox_main ["a", "b"] = .usageExit ["Usage: lox [script]"] [] 64 ∧
    (match lox_main ["a", "b"] with
     | .usageExit _ stderr _ => stderr
     | _ => ["nonempty"]) = [] := ⟨rfl, rfl⟩

/-- C9 as amended: whenever the interpreter is invoked with more than
one command-line argument it exits with code 64 after printing the usage
line to STDOUT (not stderr), without executing any script. -/
theorem claim_C9 :
    ∀ (a b : String) (rest : List String),
      lox_main (a :: b :: rest) = .usageExit ["Usage: lox [script]"] [] 64 :=
  fun _ _ _ => rfl

/-- Inversion of `ParseOut.bind`: a bind that produced `ok` did so by the
first step producing `ok` and the continuation producing `ok`. -/
theorem ParseOut.bind_eq_ok {α β : Type} {x : ParseOut α} {f : α → TokenIter → ParseOut β}
    {s : β} {rest : TokenIter} (h : x.bind f = .ok s rest) :
    ∃ v t, x = .ok v t ∧ f v t = .ok s rest := by
  cases x with
  | ok v t => exact ⟨v, t, rfl, h⟩
  | fail e => cases h
  | panicked => cases h
  | fuelOut => cases h

/-- C7 counterexample: the claim's scenario
`for (var i = 0; i < 3; i = i + 1) print i;` does not parse at all -
`for_statement` consumes no parentheses, so the `(` is parsed as a
grouping whose inner expression hits the `var` keyword and fails with
IllegalToken; nothing is desugared and nothing prints. -/
theorem claim_C7_counterexample :
    parse 100 forParenTokens = .fail (ParseError.illegal_token ⟨.Var, Position.new 2 1⟩) := by
  with_unfolding_all rfl

/-- C7 as amended: every successfully parsed `for` statement is the
desugaring `Block{initializer, While{condition, Block{body,
Expression(increment)}}}` with the literal `true` for a missing
condition and the wrappers omitted for a missing initializer or
increment - but the loop header carries no parentheses (each clause ends
at a semicolon), so the printing scenario is
`for var i = 0; i < 3; i = i + 1; print i;`, which prints 0, 1, 2.

The first conjunct says any `ok` result of `for_statement` is a
`for_desugar`; the next four give `for_desugar`'s exact shape in the
four presence/absence cases; the last runs the scenario. -/
theorem claim_C7 :
    (∀ (fuel : Nat) (tokens : TokenIter) (s : Statement) (rest : TokenIter),
      for_statement (fuel + 1) tokens = .ok s rest →
      ∃ initializer condition increment body,
        s = for_desugar initializer condition increment body) ∧
    (∀ (init : Statement) (c inc : ExpressionNode) (body : Statement),
      for_desugar (some init) (some c) (some inc) body =
        .Block [init, .While c (.Block [body, .Expression inc])]) ∧
    (∀ (init : Statement) (inc : ExpressionNode) (body : Statement),
      for_desugar (some init) none (some inc) body =
        .Block [init, .While (ExpressionNode.new (.Literal .TrueLit) (Position.new 0 1))
          (.Block [body, .Expression inc])]) ∧
    (∀ (c : ExpressionNode) (body : Statement),
      for_desugar none (some c) none body = .While c body) ∧
    (∀ (body : Statement),
      for_desugar none none none body =
        .While (ExpressionNode.new (.Literal .TrueLit) (Position.new 0 1)) body) ∧
    run_output 100 forTokens = some ["0", "1", "2"] := by
  refine ⟨?_, fun init c inc body => rfl, fun init inc body => rfl,
    fun c body => rfl, fun body => rfl, ?_⟩
  · intro fuel tokens s rest h
    simp only [for_statement] at h
    obtain ⟨initializer, t₂, _, h⟩ := ParseOut.bind_eq_ok h
    obtain ⟨condition, t₃, _, h⟩ := ParseOut.bind_eq_ok h
    obtain ⟨increment, t₄, _, h⟩ := ParseOut.bind_eq_ok h
    obtain ⟨body, t₅, _, h⟩ := ParseOut.bind_eq_ok h
    cases h
    exact ⟨initializer, condition, increment, body, rfl⟩
  · with_unfolding_all rfl

/-- C7 witness: the shape conjunct applied to the concretely parsed
`for var i = 0; i < 3; i = i + 1; print i;` (the tokens after `for`),
whose hypothesis is discharged by computation. -/
theorem claim_C7_witness :
    ∃ initializer condition increment body,
      for_desugar (some forInit) (some forCond) (some forInc) forBody =
        for_desugar initializer condition increment body :=
  claim_C7.1 98 ⟨forTokens.drop 1, 19⟩
    (for_desugar (some forInit) (some forCond) (some forInc) forBody)
    ⟨[], 19⟩ (by with_unfolding_all rfl)

/-!
Environment-chain lemmas for C8.  `innermost_definingAux` names the scope
that `Environment::get` reads and `Environment::assign` writes: the first
scope along the parent chain whose map contains the key.
-/

/-- Environment::get reads exactly the innermost defining scope. -/
theorem getAux_eq_innermost (σ : List Scope) (key : String) :
    ∀ (fuel id : Nat),
      Environment.getAux σ fuel id key =
        match innermost_definingAux σ fuel id key with
        | some j => σ[j]?.bind fun s => varsGet s.vars key
        | none => none := by
  intro fuel
  induction fuel with
  | zero => intro id; rfl
  | succ n ih =>
    intro id
    rw [Environment.getAux, innermost_definingAux]
    cases hid : σ[id]? with
    | none => rfl
    | some s =>
      rcases Bool.eq_false_or_eq_true (varsContains s.vars key) with hc | hc
      · simp [hc, hid]
      · cases hp : s.parent with
        | some p => simp [hc, hp, ih p]
        | none => simp [hc, hp]

/-- Environment::assign writes exactly the innermost defining scope (and
reports false leaving the store untouched when no scope defines the key). -/
theorem assignAux_eq_innermost (σ : List Scope) (key : String) (v : Value) :
    ∀ (fuel id : Nat),
      Environment.assignAux σ fuel id key v =
        match innermost_definingAux σ fuel id key with
        | some j => (true, listModify σ j (fun sc => sc.register key (some v)))
        | none => (false, σ) := by
  intro fuel
  induction fuel with
  | zero => intro id; rfl
  | succ n ih =>
    intro id
    rw [Environment.assignAux, innermost_definingAux]
    cases hid : σ[id]? with
    | none => rfl
    | some s =>
      rcases Bool.eq_false_or_eq_true (varsContains s.vars key) with hc | hc
      · simp [hc]
      · cases hp : s.parent with
        | some p => simp [hc, hp, ih p]
        | none => simp [hc, hp]

/-- The innermost defining scope exists and contains the key. -/
theorem innermost_contains (σ : List Scope) (key : String) :
    ∀ (fuel id j : Nat), innermost_definingAux σ fuel id key = some j →
      ∃ s, σ[j]? = some s ∧ varsContains s.vars key = true := by
  intro fuel
  induction fuel with
  | zero => intro id j h; cases h
  | succ n ih =>
    intro id j h
    rw [innermost_definingAux] at h
    cases hid : σ[id]? with
    | none => rw [hid] at h; cases h
    | some s =>
      rw [hid] at h
      rcases Bool.eq_false_or_eq_true (varsContains s.vars key) with hc | hc
      · simp only [hc] at h
        simp at h
        subst h
        exact ⟨s, hid, hc⟩
      · simp only [hc] at h
        simp at h
        cases hp : s.parent with
        | some p =>
          rw [hp] at h
          exact ih p j h
        | none =>
          rw [hp] at h
          cases h

/-- listModify writes the requested index. -/
theorem listModify_get_self (f : α → α) :
    ∀ (l : List α) (j : Nat), (listModify l j f)[j]? = l[j]?.map f := by
  intro l
  induction l with
  | nil => intro j; cases j <;> simp [listModify]
  | cons x xs ih => intro j; cases j with
    | zero => simp [listModify]
    | succ m => simpa [listModify] using ih m

/-- listModify leaves every other index unchanged. -/
theorem listModify_get_ne (f : α → α) :
    ∀ (l : List α) (j i : Nat), i ≠ j → (listModify l j f)[i]? = l[i]? := by
  intro l
  induction l with
  | nil => intro j i _; cases j <;> simp [listModify]
  | cons x xs ih =>
    intro j i hne
    cases j with
    | zero => cases i with
      | zero => exact absurd rfl hne
      | succ m => simp [listModify]
    | succ m => cases i with
      | zero => simp [listModify]
      | succ k => simpa [listModify] using ih m k (fun h => hne (by rw [h]))

/-- listModify preserves the length. -/
theorem listModify_length (f : α → α) :
    ∀ (l : List α) (j : Nat), (listModify l j f).length = l.length := by
  intro l
  induction l with
  | nil => intro j; rfl
  | cons x xs ih => intro j; cases j with
    | zero => rfl
    | succ m => simpa [listModify] using ih m

/-- HashMap::insert followed by get finds the inserted value. -/
theorem varsGet_insert_self (key : String) (v : Option Value) :
    ∀ (vars : List (String × Option Value)), varsGet (varsInsert vars key v) key = some v := by
  intro vars
  induction vars with
  | nil => simp [varsInsert, varsGet]
  | cons kv rest ih =>
    by_cases hk : kv.1 == key
    · simp [varsInsert, hk, varsGet]
    · simpa [varsInsert, hk, varsGet] using ih

/-- After assigning through the innermost defining scope, a lookup along
the same chain observes the assigned value. -/
theorem getAux_after_assign (σ : List Scope) (key : String) (v : Value) :
    ∀ (fuel id j : Nat), innermost_definingAux σ fuel id key = some j →
      Environment.getAux (listModify σ j (fun sc => sc.register key (some v))) fuel id key =
        some (some v) := by
  intro fuel
  induction fuel with
  | zero => intro id j h; cases h
  | succ n ih =>
    intro id j h
    rw [innermost_definingAux] at h
    cases hid : σ[id]? with
    | none => rw [hid] at h; cases h
    | some s =>
      rw [hid] at h
      rcases Bool.eq_false_or_eq_true (varsContains s.vars key) with hc | hc
      · simp only [hc] at h
        simp at h
        subst h
        rw [Environment.getAux, listModify_get_self, hid]
        simp [Scope.register, varsContains, varsGet_insert_self]
      · simp only [hc] at h
        simp at h
        cases hp : s.parent with
        | some p =>
          rw [hp] at h
          have hne : id ≠ j := by
            intro heq
            obtain ⟨sj, hsj, hcj⟩ := innermost_contains σ key n p j h
            rw [← heq, hid] at hsj
            cases hsj
            rw [hc] at hcj
            cases hcj
          rw [Environment.getAux, listModify_get_ne _ _ _ _ hne, hid]
          simp only [hc, hp]
          simpa using ih p j h
        | none =>
          rw [hp] at h
          cases h

/-- C8: along the parent-linked chain from any scope, if some scope (the
current one or an ancestor reached only via parent links) defines the
name, `assign` returns true, replaces the binding in the innermost
defining scope (and only there), and a subsequent lookup from the same
scope observes the assigned value; if no scope in the chain defines the
name, `assign` returns false with every scope unchanged and lookup
reports the name as unknown (`none`). -/
theorem claim_C8 (σ : List Scope) (id : Nat) (key : String) (v : Value) :
    ((Environment.get σ id key).isSome = true →
      (Environment.assign σ id key v).1 = true ∧
      (∃ j s, innermost_defining σ id key = some j ∧ σ[j]? = some s ∧
        varsContains s.vars key = true ∧
        (Environment.assign σ id key v).2 =
          listModify σ j (fun sc => sc.register key (some v))) ∧
      Environment.get (Environment.assign σ id key v).2 id key = some (some v)) ∧
    ((Environment.get σ id key).isSome = false →
      (Environment.assign σ id key v).1 = false ∧
      (Environment.assign σ id key v).2 = σ ∧
      Environment.get σ id key = none) := by
  have hget := getAux_eq_innermost σ key σ.length id
  have hassign := assignAux_eq_innermost σ key v σ.length id
  constructor
  · intro hsome
    cases hinner : innermost_definingAux σ σ.length id key with
    | none =>
      rw [Environment.get, hget, hinner] at hsome
      simp at hsome
    | some j =>
      obtain ⟨s, hsj, hcj⟩ := innermost_contains σ key σ.length id j hinner
      refine ⟨?_, ⟨j, s, hinner, hsj, hcj, ?_⟩, ?_⟩
      · rw [Environment.assign, hassign, hinner]
      · rw [Environment.assign, hassign, hinner]
      · rw [Environment.assign, hassign, hinner]
        have hlen : (listModify σ j (fun sc => sc.register key (some v))).length = σ.length :=
          listModify_length _ σ j
        rw [Environment.get, hlen]
        exact getAux_after_assign σ key v σ.length id j hinner
  · intro hnone
    cases hinner : innermost_definingAux σ σ.length id key with
    | some j =>
      obtain ⟨s, hsj, hcj⟩ := innermost_contains σ key σ.length id j hinner
      rw [Environment.get, hget, hinner] at hnone
      simp only [Option.bind] at hnone
      rw [hsj] at hnone
      rw [varsContains] at hcj
      simp at hnone
      rw [hnone] at hcj
      cases hcj
    | none =>
      rw [Environment.assign, hassign, hinner]
      rw [Environment.get, hget, hinner]
      exact ⟨rfl, rfl, rfl⟩

/-- C8 witness: the theorem applied to the one-scope store binding `x`:
assigning `x` succeeds, rewrites the scope, and is observed by lookup;
assigning the unknown `y` fails and leaves the store untouched. -/
theorem claim_C8_witness :
    ((Environment.assign [⟨none, [("x", some Value.Nil)]⟩] 0 "x" (.Boolean true)).1 = true ∧
      (∃ j s, innermost_defining [⟨none, [("x", some Value.Nil)]⟩] 0 "x" = some j ∧
        ([(⟨none, [("x", some Value.Nil)]⟩ : Scope)])[j]? = some s ∧
        varsContains s.vars "x" = true ∧
        (Environment.assign [⟨none, [("x", some Value.Nil)]⟩] 0 "x" (.Boolean true)).2 =
          listModify [⟨none, [("x", some Value.Nil)]⟩] j
            (fun sc => sc.register "x" (some (.Boolean true)))) ∧
      Environment.get
        (Environment.assign [⟨none, [("x", some Value.Nil)]⟩] 0 "x" (.Boolean true)).2
        0 "x" = some (some (.Boolean true))) ∧
    ((Environment.assign [⟨none, [("x", some Value.Nil)]⟩] 0 "y" (.Boolean true)).1 = false ∧
      (Environment.assign [⟨none, [("x", some Value.Nil)]⟩] 0 "y" (.Boolean true)).2 =
        [⟨none, [("x", some Value.Nil)]⟩] ∧
      Environment.get [⟨none, [("x", some Value.Nil)]⟩] 0 "y" = none) :=
  ⟨(claim_C8 [⟨none, [("x", some Value.Nil)]⟩] 0 "x" (.Boolean true)).1 rfl,
   (claim_C8 [⟨none, [("x", some Value.Nil)]⟩] 0 "y" (.Boolean true)).2 rfl⟩

/-!
Scanner lemmas for C4.  Every helper of the scan loop only consumes
characters, so the loop advances by at least one character per
iteration and `length + 1` fuel always suffices.
-/

namespace Scanner

/-- scan_until never grows the remaining character list. -/
theorem scan_until_aux_length (source : List Char) (target : Char) :
    ∀ (l : List Char) (pos line column : Nat),
      (scan_until_aux source l pos line column target).2.chars.length ≤ l.length := by
  intro l
  induction l with
  | nil => intro pos line column; simp [scan_until_aux]
  | cons c cs ih =>
    intro pos line column
    rw [scan_until_aux]
    split
    · split <;> simp
    · split
      · have := ih (pos + 1) (line + 1) 0
        simp only [List.length_cons]
        omega
      · have := ih (pos + 1) line (column + 1)
        simp only [List.length_cons]
        omega

/-- The digit loop of scan_number never grows the remaining list. -/
theorem scan_number_loop_length (source : List Char) :
    ∀ (l : List Char) (pos line column : Nat) (fd : Bool) (le : Entry),
      (scan_number_loop source l pos line column fd le).2.chars.length ≤ l.length := by
  intro l
  induction l with
  | nil => intro pos line column fd le; simp [scan_number_loop]
  | cons c cs ih =>
    intro pos line column fd le
    rw [scan_number_loop]
    split
    · have := ih (pos + 1) line (column + 1) fd ⟨c, pos, column, line⟩
      simp only [List.length_cons]
      omega
    · split
      · have := ih (pos + 1) line (column + 1) true ⟨c, pos, column, line⟩
        simp only [List.length_cons]
        omega
      · simp

/-- The alphanumeric loop of scan_identifier never grows the remaining
list. -/
theorem scan_identifier_loop_length (source : List Char) :
    ∀ (l : List Char) (pos line column : Nat) (le : Entry),
      (scan_identifier_loop source l pos line column le).2.chars.length ≤ l.length := by
  intro l
  induction l with
  | nil => intro pos line column le; simp [scan_identifier_loop]
  | cons c cs ih =>
    intro pos line column le
    rw [scan_identifier_loop]
    split
    · simp
    · have := ih (pos + 1) line (column + 1) ⟨c, pos, column, line⟩
      simp only [List.length_cons]
      omega

/-- next_match consumes at most one character. -/
theorem next_match_length (s : SourceIterator) (c : Char) :
    (s.next_match c).2.chars.length ≤ s.chars.length := by
  rw [SourceIterator.next_match]
  cases hch : s.chars with
  | nil => simp [SourceIterator.peek, hch]
  | cons x xs =>
    simp only [SourceIterator.peek, hch, List.head?]
    by_cases hx : x = c
    · simp only [hx, if_pos rfl]
      rw [SourceIterator.next]
      simp only [hch]
      split
      · split <;> simp
      · simp_all
    · simp [hx, hch]

/-- SourceIterator::scan_until never grows the remaining list (wrapper
form). -/
theorem scan_until_length (s : SourceIterator) (t : Char) :
    (s.scan_until t).2.chars.length ≤ s.chars.length :=
  scan_until_aux_length s.source t s.chars s.pos s.line s.column

/-- Iterator::next consumes exactly one character. -/
theorem next_some_length (s : SourceIterator) (e : Entry) (s' : SourceIterator)
    (h : s.next = some (e, s')) : s'.chars.length + 1 = s.chars.length := by
  rw [SourceIterator.next] at h
  cases hch : s.chars with
  | nil => rw [hch] at h; cases h
  | cons x xs =>
    rw [hch] at h
    by_cases hx : x = '\n' <;> simp [hx] at h <;> rw [← h.2] <;> simp

/-- A successful scan_string only consumes characters. -/
theorem scan_string_length (s : SourceIterator) (e : Entry) (tok : Token)
    (s' : SourceIterator) (h : scan_string s e = some (.ok (tok, s'))) :
    s'.chars.length ≤ s.chars.length := by
  rw [scan_string] at h
  cases hu : (s.scan_until '"').1 with
  | none => rw [hu] at h; simp at h
  | some entry =>
    rw [hu] at h
    cases hsub : substring s.source (e.position + 1) (entry.position - 1) with
    | none => simp [hsub] at h
    | some value =>
      simp [hsub] at h
      obtain ⟨h1, h2⟩ := h
      subst h2
      exact scan_until_aux_length s.source '"' s.chars s.pos s.line s.column

/-- A successful scan_number only consumes characters. -/
theorem scan_number_length (s : SourceIterator) (e : Entry) (tok : Token)
    (s' : SourceIterator) (h : scan_number s e = some (tok, s')) :
    s'.chars.length ≤ s.chars.length := by
  rw [scan_number] at h
  cases hsub : substring s.source e.position
      (scan_number_loop s.source s.chars s.pos s.line s.column false e).1.position with
  | none => simp [hsub] at h
  | some lexeme =>
    simp only [hsub] at h
    cases hp : rustParseF64 lexeme with
    | none => simp [hp] at h
    | some value =>
      simp [hp] at h
      obtain ⟨h1, h2⟩ := h
      subst h2
      exact scan_number_loop_length s.source s.chars s.pos s.line s.column false e

/-- A successful scan_identifier only consumes characters. -/
theorem scan_identifier_length (s : SourceIterator) (e : Entry) (tok : Token)
    (s' : SourceIterator) (h : scan_identifier s e = some (tok, s')) :
    s'.chars.length ≤ s.chars.length := by
  rw [scan_identifier] at h
  cases hsub : substring s.source e.position
      (scan_identifier_loop s.source s.chars s.pos s.line s.column e).1.position with
  | none => simp [hsub] at h
  | some value =>
    simp [hsub] at h
    obtain ⟨h1, h2⟩ := h
    subst h2
    exact scan_identifier_loop_length s.source s.chars s.pos s.line s.column e

/-- With more fuel than remaining characters, the scan loop never runs
out of fuel: `fuelOut` is unreachable from `scan`. -/
theorem scan_loop_ne_fuelOut :
    ∀ (fuel : Nat) (it : SourceIterator) (tokens : List Token) (diags : List String),
      it.chars.length < fuel → scan_loop fuel it tokens diags ≠ .fuelOut := by
  intro fuel
  induction fuel with
  | zero => intro it tokens diags h; omega
  | succ n ih =>
    intro it tokens diags hlen
    rw [scan_loop]
    cases hnext : it.next with
    | none => simp
    | some es =>
      obtain ⟨e, s₁⟩ := es
      have hlen₁ : s₁.chars.length + 1 = it.chars.length := next_some_length it e s₁ hnext
      dsimp only
      repeat' split
      all_goals first
        | (intro hcon; cases hcon)
        | (apply ih
           first
             | omega
             | (have h0 := next_match_length s₁ '='; omega)
             | (have h₁ := next_match_length s₁ '/'
                have h₂ := scan_until_length (s₁.next_match '/').2 '\n'
                omega)
             | (rename_i tok s₂ hh
                first
                  | (have h0 := scan_string_length s₁ e tok s₂ hh; omega)
                  | (have h0 := scan_number_length s₁ e tok s₂ hh; omega)
                  | (have h0 := scan_identifier_length s₁ e tok s₂ hh; omega)))

/-!
ASCII totality.  On all-ASCII sources the byte-indexed `substring`
agrees with the scanner's per-character counters, every lexeme
`scan_number` slices out parses, and the scan loop always reaches
`.done`.
-/

/-- Dropping one more element of a list whose suffix is known. -/
theorem drop_succ_of_drop_cons {α : Type} {src : List α} {pos : Nat} {x : α}
    {xs : List α} (h : src.drop pos = x :: xs) : src.drop (pos + 1) = xs := by
  have h1 : (src.drop pos).drop 1 = xs := by rw [h]; simp
  rw [List.drop_drop] at h1
  simpa [Nat.add_comm] using h1

/-- ASCII characters are one UTF-8 byte. -/
theorem charUtf8Size_ascii (c : Char) (h : c.toNat < 128) : charUtf8Size c = 1 := by
  simp [charUtf8Size, h]

/-- On an all-ASCII list, dropping n bytes is dropping n characters. -/
theorem dropBytes_ascii :
    ∀ (l : List Char) (n : Nat), (∀ c ∈ l, c.toNat < 128) → n ≤ l.length →
      dropBytes l n = some (l.drop n) := by
  intro l
  induction l with
  | nil =>
    intro n _ hn
    simp only [List.length_nil, Nat.le_zero] at hn
    subst hn
    simp [dropBytes]
  | cons c cs ih =>
    intro n hascii hn
    cases n with
    | zero => simp [dropBytes]
    | succ n =>
      rw [dropBytes]
      rw [charUtf8Size_ascii c (hascii c (by simp))]
      rw [if_pos (by omega)]
      have hsub : n + 1 - 1 = n := by omega
      rw [hsub]
      rw [ih n (fun d hd => hascii d (by simp [hd])) (by simpa using hn)]
      simp

/-- On an all-ASCII list, taking n bytes is taking n characters. -/
theorem takeBytes_ascii :
    ∀ (l : List Char) (n : Nat), (∀ c ∈ l, c.toNat < 128) → n ≤ l.length →
      takeBytes l n = some (l.take n) := by
  intro l
  induction l with
  | nil =>
    intro n _ hn
    simp only [List.length_nil, Nat.le_zero] at hn
    subst hn
    simp [takeBytes]
  | cons c cs ih =>
    intro n hascii hn
    cases n with
    | zero => simp [takeBytes]
    | succ n =>
      rw [takeBytes]
      rw [charUtf8Size_ascii c (hascii c (by simp))]
      rw [if_pos (by omega)]
      have hsub : n + 1 - 1 = n := by omega
      rw [hsub]
      rw [ih n (fun d hd => hascii d (by simp [hd])) (by simpa using hn)]
      simp

/-- On an all-ASCII text, `substring` is the character slice
`start..=stop`. -/
theorem substring_ascii (text : List Char) (start stop : Nat)
    (hascii : ∀ c ∈ text, c.toNat < 128)
    (hrange : start ≤ stop + 1) (hstop : stop + 1 ≤ text.length) :
    substring text start stop = some ((text.drop start).take (stop + 1 - start)) := by
  rw [substring, if_pos hrange]
  rw [dropBytes_ascii text start hascii (by omega)]
  rw [Option.some_bind]
  exact takeBytes_ascii (text.drop start) (stop + 1 - start)
    (fun c hc => hascii c (List.drop_subset start text hc))
    (by rw [List.length_drop]; omega)

/-- Iterator::next: the emitted entry holds the head character at the
current position, and the successor iterator keeps the source, drops the
head and advances the position. -/
theorem next_spec (it : SourceIterator) (e : Entry) (s₁ : SourceIterator)
    (h : it.next = some (e, s₁)) :
    e.value :: s₁.chars = it.chars ∧ e.position = it.pos ∧
      s₁.pos = it.pos + 1 ∧ s₁.source = it.source := by
  rw [SourceIterator.next] at h
  cases hch : it.chars with
  | nil => rw [hch] at h; cases h
  | cons c cs =>
    rw [hch] at h
    simp only [Option.some.injEq, Prod.mk.injEq] at h
    obtain ⟨he, hs⟩ := h
    subst he
    subst hs
    by_cases hnl : c = '\n' <;> simp [hnl, hch]

/-- `next` preserves the iterator invariant. -/
theorem next_good (it : SourceIterator) (e : Entry) (s₁ : SourceIterator)
    (h : it.next = some (e, s₁)) (hg : GoodIter it) : GoodIter s₁ := by
  obtain ⟨hcons, hepos, hpos₁, hsrc₁⟩ := next_spec it e s₁ h
  constructor
  · rw [hsrc₁]; exact hg.1
  · rw [hsrc₁, hpos₁]
    exact (drop_succ_of_drop_cons (by rw [← hg.2]; exact hcons.symm)).symm

/-- `next_match` preserves the iterator invariant. -/
theorem next_match_good (s : SourceIterator) (c : Char)
    (hg : GoodIter s) : GoodIter (s.next_match c).2 := by
  rw [SourceIterator.next_match]
  cases hpk : s.peek with
  | none => exact hg
  | some x =>
    dsimp only
    by_cases hxc : x = c
    · rw [if_pos hxc]
      cases hnx : s.next with
      | none => exact hg
      | some es =>
        obtain ⟨e, s₁⟩ := es
        exact next_good s e s₁ hnx hg
    · rw [if_neg hxc]; exact hg

/-- scan_until preserves the source and the suffix invariant. -/
theorem scan_until_aux_inv (src : List Char) (target : Char) :
    ∀ (l : List Char) (pos line col : Nat), src.drop pos = l →
      (scan_until_aux src l pos line col target).2.source = src ∧
        (scan_until_aux src l pos line col target).2.chars =
          src.drop (scan_until_aux src l pos line col target).2.pos := by
  intro l
  induction l with
  | nil =>
    intro pos line col h
    exact ⟨rfl, h.symm⟩
  | cons c cs ih =>
    intro pos line col h
    rw [scan_until_aux]
    by_cases hc : c = target
    · rw [if_pos hc]
      constructor
      · by_cases hnl : c = '\n' <;> simp [hnl]
      · by_cases hnl : c = '\n' <;> simp [hnl] <;>
          exact (drop_succ_of_drop_cons h).symm
    · rw [if_neg hc]
      by_cases hnl : c = '\n'
      · rw [if_pos hnl]; exact ih _ _ _ (drop_succ_of_drop_cons h)
      · rw [if_neg hnl]; exact ih _ _ _ (drop_succ_of_drop_cons h)

/-- `scan_until` preserves the iterator invariant. -/
theorem scan_until_good (s : SourceIterator) (t : Char)
    (hg : GoodIter s) : GoodIter (s.scan_until t).2 := by
  obtain ⟨h1, h2⟩ := scan_until_aux_inv s.source t s.chars s.pos s.line s.column hg.2.symm
  exact ⟨by rw [SourceIterator.scan_until, h1]; exact hg.1,
    by rw [SourceIterator.scan_until, h1]; exact h2⟩

/-- scan_until finds nothing when the target is absent. -/
theorem scan_until_aux_not_found (src : List Char) (target : Char) :
    ∀ (l : List Char) (pos line col : Nat), target ∉ l →
      (scan_until_aux src l pos line col target).1 = none := by
  intro l
  induction l with
  | nil => intro pos line col _; rfl
  | cons c cs ih =>
    intro pos line col hmem
    rw [scan_until_aux]
    have hc : ¬ c = target := by
      intro h; exact hmem (by simp [h])
    rw [if_neg hc]
    by_cases hnl : c = '\n'
    · rw [if_pos hnl]; exact ih _ _ _ (fun h => hmem (List.mem_cons_of_mem c h))
    · rw [if_neg hnl]; exact ih _ _ _ (fun h => hmem (List.mem_cons_of_mem c h))

/-- When the target occurs, scan_until returns the entry of its first
occurrence, whose position is the start position plus an in-range
offset. -/
theorem scan_until_aux_found (src : List Char) (target : Char) :
    ∀ (l : List Char) (pos line col : Nat), target ∈ l →
      ∃ j e, j < l.length ∧
        (scan_until_aux src l pos line col target).1 = some e ∧
        e.position = pos + j := by
  intro l
  induction l with
  | nil => intro pos line col h; cases h
  | cons c cs ih =>
    intro pos line col hmem
    rw [scan_until_aux]
    by_cases hc : c = target
    · refine ⟨0, ⟨c, pos, col, line⟩, by simp, ?_, by simp⟩
      rw [if_pos hc]
    · rw [if_neg hc]
      have hmem' : target ∈ cs := by
        rcases List.mem_cons.mp hmem with h | h
        · exact absurd h.symm hc
        · exact h
      by_cases hnl : c = '\n'
      · rw [if_pos hnl]
        obtain ⟨j, e, hj, h1, hp⟩ := ih (pos + 1) (line + 1) 0 hmem'
        exact ⟨j + 1, e, by simp; omega, h1, by omega⟩
      · rw [if_neg hnl]
        obtain ⟨j, e, hj, h1, hp⟩ := ih (pos + 1) line (col + 1) hmem'
        exact ⟨j + 1, e, by simp; omega, h1, by omega⟩

/-- Below 128 the model's char_is_numeric is exactly isDigit (the
vulgar-fraction codepoints are all above 128). -/
theorem ascii_numeric_isDigit {c : Char} (ha : c.toNat < 128)
    (hn : char_is_numeric c = true) : c.isDigit = true := by
  have h1 : (c.toNat == 0xBC) = false := by
    simp only [beq_eq_false_iff_ne, ne_eq]; omega
  have h2 : (c.toNat == 0xBD) = false := by
    simp only [beq_eq_false_iff_ne, ne_eq]; omega
  have h3 : (c.toNat == 0xBE) = false := by
    simp only [beq_eq_false_iff_ne, ne_eq]; omega
  rw [char_is_numeric, h1, h2, h3] at hn
  simpa using hn

/-- The numeric prefix of an all-ASCII list is all decimal digits. -/
theorem takeWhile_numeric_all_digit :
    ∀ (l : List Char), (∀ c ∈ l, c.toNat < 128) →
      (l.takeWhile char_is_numeric).all Char.isDigit = true := by
  intro l
  induction l with
  | nil => intro _; rfl
  | cons c cs ih =>
    intro ha
    by_cases hc : char_is_numeric c = true
    · rw [List.takeWhile_cons, if_pos hc, List.all_cons]
      rw [ascii_numeric_isDigit (ha c (by simp)) hc]
      rw [ih (fun d hd => ha d (by simp [hd]))]
      rfl
    · rw [List.takeWhile_cons, if_neg hc]
      rfl

/-- Taking as many elements as the takeWhile prefix recovers it. -/
theorem take_takeWhile_length (p : Char → Bool) :
    ∀ l : List Char, l.take (l.takeWhile p).length = l.takeWhile p := by
  intro l
  induction l with
  | nil => rfl
  | cons c cs ih =>
    by_cases hc : p c = true
    · rw [List.takeWhile_cons, if_pos hc]
      simp [ih]
    · rw [List.takeWhile_cons, if_neg hc]
      rfl

/-- takeWhile/dropWhile across an all-satisfying prefix followed by a
failing element. -/
theorem takeWhile_all_append (p : Char → Bool) :
    ∀ (l₁ : List Char), l₁.all p = true → ∀ (c : Char), p c = false →
      ∀ (l₂ : List Char),
      (l₁ ++ c :: l₂).takeWhile p = l₁ ∧ (l₁ ++ c :: l₂).dropWhile p = c :: l₂ := by
  intro l₁
  induction l₁ with
  | nil =>
    intro _ c hc l₂
    constructor
    · rw [List.nil_append, List.takeWhile_cons, if_neg (by simp [hc])]
    · rw [List.nil_append, List.dropWhile_cons, if_neg (by simp [hc])]
  | cons a l ih =>
    intro hall c hc l₂
    rw [List.all_cons, Bool.and_eq_true] at hall
    constructor
    · rw [List.cons_append, List.takeWhile_cons, if_pos hall.1, (ih hall.2 c hc l₂).1]
    · rw [List.cons_append, List.dropWhile_cons, if_pos hall.1]
      exact (ih hall.2 c hc l₂).2

/-- takeWhile/dropWhile on an all-satisfying list. -/
theorem takeWhile_of_all (p : Char → Bool) :
    ∀ (l : List Char), l.all p = true →
      l.takeWhile p = l ∧ l.dropWhile p = [] := by
  intro l
  induction l with
  | nil => intro _; exact ⟨rfl, rfl⟩
  | cons a l ih =>
    intro hall
    rw [List.all_cons, Bool.and_eq_true] at hall
    constructor
    · rw [List.takeWhile_cons, if_pos hall.1, (ih hall.2).1]
    · rw [List.dropWhile_cons, if_pos hall.1]
      exact (ih hall.2).2

/-- A nonempty all-digit lexeme parses as an f64. -/
theorem rustParseF64_digits (d : Char) (hd : d.isDigit = true) (l : List Char)
    (hl : l.all Char.isDigit = true) :
    ∃ q, rustParseF64 (d :: l) = some q := by
  have hall : (d :: l).all Char.isDigit = true := by
    rw [List.all_cons, hd, hl]; rfl
  obtain ⟨ht, hdrp⟩ := takeWhile_of_all Char.isDigit (d :: l) hall
  exact ⟨(digitsToNat (d :: l) : ℚ), by rw [rustParseF64]; simp [ht, hdrp]⟩

/-- A digits-dot-digits lexeme parses as an f64. -/
theorem rustParseF64_digits_dot (d : Char) (hd : d.isDigit = true)
    (l₁ l₂ : List Char) (h₁ : l₁.all Char.isDigit = true)
    (h₂ : l₂.all Char.isDigit = true) (hne : l₂ ≠ []) :
    ∃ q, rustParseF64 (d :: (l₁ ++ '.' :: l₂)) = some q := by
  have hdot : ('.' : Char).isDigit = false := by decide
  have hall : (d :: l₁).all Char.isDigit = true := by
    rw [List.all_cons, hd, h₁]; rfl
  obtain ⟨ht, hdrp⟩ := takeWhile_all_append Char.isDigit (d :: l₁) hall '.' hdot l₂
  simp only [List.cons_append] at ht hdrp
  have h₂' : ∀ x ∈ l₂, x.isDigit = true := by simpa using h₂
  refine ⟨(digitsToNat (d :: l₁) : ℚ) + (digitsToNat l₂ : ℚ) / (10 ^ l₂.length : ℚ), ?_⟩
  rw [rustParseF64]
  simp [ht, hdrp, hne]
  exact h₂'

/-- scan_number_loop's continuation iterator keeps the source, consumes
a prefix and advances the counters in step. -/
theorem scan_number_loop_inv (src : List Char) :
    ∀ (l : List Char) (fd : Bool) (pos line col : Nat) (last : Entry),
      ∃ k, k ≤ l.length ∧
        (scan_number_loop src l pos line col fd last).2 =
          ⟨src, l.drop k, pos + k, line, col + k⟩ := by
  intro l
  induction l with
  | nil =>
    intro fd pos line col last
    exact ⟨0, by simp, by simp [scan_number_loop]⟩
  | cons c cs ih =>
    intro fd pos line col last
    rw [scan_number_loop]
    by_cases h1 : char_is_numeric c = true
    · rw [if_pos h1]
      obtain ⟨k, hk, h⟩ := ih fd (pos + 1) line (col + 1) ⟨c, pos, col, line⟩
      refine ⟨k + 1, by simp; omega, ?_⟩
      rw [h]
      have e1 : pos + 1 + k = pos + (k + 1) := by omega
      have e2 : col + 1 + k = col + (k + 1) := by omega
      rw [e1, e2]
      simp
    · rw [if_neg h1]
      cases fd with
      | true =>
        rw [if_neg (by simp)]
        exact ⟨0, by simp, by simp⟩
      | false =>
        by_cases hceq : c = '.'
        · by_cases hhead : cs.head?.elim false char_is_numeric = true
          · rw [if_pos (by simp [hceq, hhead])]
            obtain ⟨k, hk, h⟩ := ih true (pos + 1) line (col + 1) ⟨c, pos, col, line⟩
            refine ⟨k + 1, by simp; omega, ?_⟩
            rw [h]
            have e1 : pos + 1 + k = pos + (k + 1) := by omega
            have e2 : col + 1 + k = col + (k + 1) := by omega
            rw [e1, e2]
            simp
          · rw [if_neg (by simp [hhead])]
            exact ⟨0, by simp, by simp⟩
        · rw [if_neg (by simp [hceq])]
          exact ⟨0, by simp, by simp⟩

/-- scan_identifier_loop's continuation iterator keeps the source,
consumes a prefix and advances the counters in step. -/
theorem scan_identifier_loop_inv (src : List Char) :
    ∀ (l : List Char) (pos line col : Nat) (last : Entry),
      ∃ k, k ≤ l.length ∧
        (scan_identifier_loop src l pos line col last).2 =
          ⟨src, l.drop k, pos + k, line, col + k⟩ := by
  intro l
  induction l with
  | nil =>
    intro pos line col last
    exact ⟨0, by simp, by simp [scan_identifier_loop]⟩
  | cons c cs ih =>
    intro pos line col last
    rw [scan_identifier_loop]
    by_cases h1 : char_is_alphanumeric c = true
    · rw [if_neg (by simp [h1])]
      obtain ⟨k, hk, h⟩ := ih (pos + 1) line (col + 1) ⟨c, pos, col, line⟩
      refine ⟨k + 1, by simp; omega, ?_⟩
      rw [h]
      have e1 : pos + 1 + k = pos + (k + 1) := by omega
      have e2 : col + 1 + k = col + (k + 1) := by omega
      rw [e1, e2]
      simp
    · rw [if_pos (by simp [h1])]
      exact ⟨0, by simp, by simp⟩

/-- A successful scan_number hands back a well-formed iterator. -/
theorem scan_number_inv (s : SourceIterator) (e : Entry) (tok : Token)
    (s₂ : SourceIterator) (h : scan_number s e = some (tok, s₂))
    (hg : GoodIter s) : GoodIter s₂ := by
  obtain ⟨k, hk, hIt⟩ := scan_number_loop_inv s.source s.chars false s.pos s.line s.column e
  simp only [scan_number] at h
  rw [hIt] at h
  cases hsub : substring s.source e.position
      (scan_number_loop s.source s.chars s.pos s.line s.column false e).1.position with
  | none => rw [hsub] at h; cases h
  | some lex =>
    rw [hsub] at h
    dsimp only at h
    cases hp : rustParseF64 lex with
    | none => rw [hp] at h; cases h
    | some v =>
      rw [hp] at h
      dsimp only at h
      simp only [Option.some.injEq, Prod.mk.injEq] at h
      obtain ⟨htok, hs₂⟩ := h
      subst hs₂
      refine ⟨hg.1, ?_⟩
      show s.chars.drop k = s.source.drop (s.pos + k)
      rw [hg.2, List.drop_drop, Nat.add_comm]

/-- A successful scan_identifier hands back a well-formed iterator. -/
theorem scan_identifier_inv (s : SourceIterator) (e : Entry) (tok : Token)
    (s₂ : SourceIterator) (h : scan_identifier s e = some (tok, s₂))
    (hg : GoodIter s) : GoodIter s₂ := by
  obtain ⟨k, hk, hIt⟩ := scan_identifier_loop_inv s.source s.chars s.pos s.line s.column e
  simp only [scan_identifier] at h
  rw [hIt] at h
  cases hsub : substring s.source e.position
      (scan_identifier_loop s.source s.chars s.pos s.line s.column e).1.position with
  | none => rw [hsub] at h; cases h
  | some lex =>
    rw [hsub] at h
    dsimp only at h
    simp only [Option.some.injEq, Prod.mk.injEq] at h
    obtain ⟨htok, hs₂⟩ := h
    subst hs₂
    refine ⟨hg.1, ?_⟩
    show s.chars.drop k = s.source.drop (s.pos + k)
    rw [hg.2, List.drop_drop, Nat.add_comm]

/-- A successful scan_string hands back a well-formed iterator. -/
theorem scan_string_inv (s : SourceIterator) (e : Entry) (tok : Token)
    (s₂ : SourceIterator) (h : scan_string s e = some (.ok (tok, s₂)))
    (hg : GoodIter s) : GoodIter s₂ := by
  have hgu := scan_until_good s '"' hg
  simp only [scan_string] at h
  cases hr : (s.scan_until '"').1 with
  | none => rw [hr] at h; simp at h
  | some entry =>
    rw [hr] at h
    dsimp only at h
    cases hsub : substring s.source (e.position + 1) (entry.position - 1) with
    | none => rw [hsub] at h; cases h
    | some value =>
      rw [hsub] at h
      dsimp only at h
      simp only [Option.some.injEq, Except.ok.injEq, Prod.mk.injEq] at h
      obtain ⟨htok, hs₂⟩ := h
      subst hs₂
      exact hgu

/-- scan_identifier_loop consumes exactly the alphanumeric prefix, and
the final entry sits on its last character. -/
theorem scan_identifier_loop_spec (src : List Char) :
    ∀ (l : List Char) (pos line col : Nat) (last : Entry),
      ∃ last',
        scan_identifier_loop src l pos line col last =
          (last', ⟨src, l.drop (l.takeWhile char_is_alphanumeric).length,
            pos + (l.takeWhile char_is_alphanumeric).length, line,
            col + (l.takeWhile char_is_alphanumeric).length⟩) ∧
        last'.position = (if (l.takeWhile char_is_alphanumeric).length = 0
          then last.position else pos + (l.takeWhile char_is_alphanumeric).length - 1) := by
  intro l
  induction l with
  | nil =>
    intro pos line col last
    exact ⟨last, by simp [scan_identifier_loop], by simp⟩
  | cons c cs ih =>
    intro pos line col last
    by_cases hc : char_is_alphanumeric c = true
    · obtain ⟨last', h1, h2⟩ := ih (pos + 1) line (col + 1) ⟨c, pos, col, line⟩
      refine ⟨last', ?_, ?_⟩
      · rw [scan_identifier_loop, if_neg (by simp [hc]), h1]
        rw [List.takeWhile_cons, if_pos hc]
        have e1 : pos + 1 + (cs.takeWhile char_is_alphanumeric).length =
            pos + ((cs.takeWhile char_is_alphanumeric).length + 1) := by omega
        have e2 : col + 1 + (cs.takeWhile char_is_alphanumeric).length =
            col + ((cs.takeWhile char_is_alphanumeric).length + 1) := by omega
        rw [e1, e2]
        simp
      · rw [List.takeWhile_cons, if_pos hc]
        simp only [List.length_cons]
        rw [if_neg (by omega)]
        by_cases hk : (cs.takeWhile char_is_alphanumeric).length = 0 <;>
          simp [hk] at h2 <;> omega
    · refine ⟨last, ?_, ?_⟩
      · rw [scan_identifier_loop, if_pos (by simp [hc])]
        rw [List.takeWhile_cons, if_neg hc]
        simp
      · rw [List.takeWhile_cons, if_neg hc]
        simp

/-- With found_dot set, scan_number_loop consumes exactly the numeric
prefix, and the final entry sits on its last character. -/
theorem scan_number_loop_true_spec (src : List Char) :
    ∀ (l : List Char) (pos line col : Nat) (last : Entry),
      ∃ last',
        scan_number_loop src l pos line col true last =
          (last', ⟨src, l.drop (l.takeWhile char_is_numeric).length,
            pos + (l.takeWhile char_is_numeric).length, line,
            col + (l.takeWhile char_is_numeric).length⟩) ∧
        last'.position = (if (l.takeWhile char_is_numeric).length = 0
          then last.position else pos + (l.takeWhile char_is_numeric).length - 1) := by
  intro l
  induction l with
  | nil =>
    intro pos line col last
    exact ⟨last, by simp [scan_number_loop], by simp⟩
  | cons c cs ih =>
    intro pos line col last
    by_cases hc : char_is_numeric c = true
    · obtain ⟨last', h1, h2⟩ := ih (pos + 1) line (col + 1) ⟨c, pos, col, line⟩
      refine ⟨last', ?_, ?_⟩
      · rw [scan_number_loop, if_pos hc, h1]
        rw [List.takeWhile_cons, if_pos hc]
        have e1 : pos + 1 + (cs.takeWhile char_is_numeric).length =
            pos + ((cs.takeWhile char_is_numeric).length + 1) := by omega
        have e2 : col + 1 + (cs.takeWhile char_is_numeric).length =
            col + ((cs.takeWhile char_is_numeric).length + 1) := by omega
        rw [e1, e2]
        simp
      · rw [List.takeWhile_cons, if_pos hc]
        simp only [List.length_cons]
        rw [if_neg (by omega)]
        by_cases hk : (cs.takeWhile char_is_numeric).length = 0 <;>
          simp [hk] at h2 <;> omega
    · refine ⟨last, ?_, ?_⟩
      · rw [scan_number_loop, if_neg hc, if_neg (by simp)]
        rw [List.takeWhile_cons, if_neg hc]
        simp
      · rw [List.takeWhile_cons, if_neg hc]
        simp

/-- Without found_dot, scan_number_loop on all-ASCII input consumes a
prefix of shape digits or digits-dot-digits (the digit run before a
single dot followed by at least one digit), ending on its last
character. -/
theorem scan_number_loop_false_spec (src : List Char) :
    ∀ (l : List Char) (pos line col : Nat) (last : Entry),
      (∀ c ∈ l, c.toNat < 128) →
      ∃ last' k, k ≤ l.length ∧
        scan_number_loop src l pos line col false last =
          (last', ⟨src, l.drop k, pos + k, line, col + k⟩) ∧
        last'.position = (if k = 0 then last.position else pos + k - 1) ∧
        ((l.take k).all Char.isDigit = true ∨
          ∃ l₁ l₂, l.take k = l₁ ++ '.' :: l₂ ∧ l₁.all Char.isDigit = true ∧
            l₂.all Char.isDigit = true ∧ l₂ ≠ []) := by
  intro l
  induction l with
  | nil =>
    intro pos line col last _
    exact ⟨last, 0, by simp, by simp [scan_number_loop], by simp, Or.inl (by simp)⟩
  | cons c cs ih =>
    intro pos line col last hascii
    by_cases hc : char_is_numeric c = true
    · have hd : c.isDigit = true := ascii_numeric_isDigit (hascii c (by simp)) hc
      obtain ⟨last', k, hk, h1, h2, h3⟩ :=
        ih (pos + 1) line (col + 1) ⟨c, pos, col, line⟩
          (fun d hdm => hascii d (by simp [hdm]))
      refine ⟨last', k + 1, by simp; omega, ?_, ?_, ?_⟩
      · rw [scan_number_loop, if_pos hc, h1]
        have e1 : pos + 1 + k = pos + (k + 1) := by omega
        have e2 : col + 1 + k = col + (k + 1) := by omega
        rw [e1, e2]
        simp
      · rw [if_neg (by omega)]
        by_cases hk0 : k = 0 <;> simp [hk0] at h2 <;> omega
      · rcases h3 with h3 | ⟨l₁, l₂, heq, ha1, ha2, hne⟩
        · left
          rw [List.take_succ_cons, List.all_cons, hd, h3]
          rfl
        · right
          refine ⟨c :: l₁, l₂, by rw [List.take_succ_cons, heq, List.cons_append], ?_, ha2, hne⟩
          rw [List.all_cons, hd, ha1]
          rfl
    · by_cases hceq : c = '.'
      · by_cases hhead : cs.head?.elim false char_is_numeric = true
        · -- the dot is consumed, then a nonempty digit run follows
          cases cs with
          | nil => exact absurd hhead (by simp)
          | cons d cs' =>
            have hdnum : char_is_numeric d = true := by simpa using hhead
            have hdd : d.isDigit = true :=
              ascii_numeric_isDigit (hascii d (by simp)) hdnum
            obtain ⟨last', hL1, hL2⟩ :=
              scan_number_loop_true_spec src (d :: cs') (pos + 1) line (col + 1)
                ⟨c, pos, col, line⟩
            have htw : (d :: cs').takeWhile char_is_numeric =
                d :: cs'.takeWhile char_is_numeric := by
              rw [List.takeWhile_cons, if_pos hdnum]
            have hkle : (cs'.takeWhile char_is_numeric).length ≤ cs'.length :=
              List.IsPrefix.length_le (List.takeWhile_prefix char_is_numeric)
            refine ⟨last', (cs'.takeWhile char_is_numeric).length + 1 + 1,
              by simp; omega, ?_, ?_, ?_⟩
            · rw [scan_number_loop, if_neg hc, if_pos (by simp [hceq, hdnum]), hL1, htw]
              simp only [List.length_cons]
              have e1 : pos + 1 + ((cs'.takeWhile char_is_numeric).length + 1) =
                  pos + ((cs'.takeWhile char_is_numeric).length + 1 + 1) := by omega
              have e2 : col + 1 + ((cs'.takeWhile char_is_numeric).length + 1) =
                  col + ((cs'.takeWhile char_is_numeric).length + 1 + 1) := by omega
              rw [e1, e2]
              simp
            · rw [htw] at hL2
              simp only [List.length_cons] at hL2
              rw [if_neg (by omega)] at hL2
              rw [if_neg (by omega)]
              omega
            · right
              refine ⟨[], d :: cs'.take (cs'.takeWhile char_is_numeric).length,
                ?_, rfl, ?_, by simp⟩
              · rw [List.take_succ_cons, List.take_succ_cons, hceq]
                rfl
              · rw [take_takeWhile_length char_is_numeric cs']
                rw [List.all_cons, hdd]
                rw [takeWhile_numeric_all_digit cs'
                  (fun x hx => hascii x (by simp [hx]))]
                rfl
        · refine ⟨last, 0, by simp, ?_, by simp, Or.inl (by simp)⟩
          rw [scan_number_loop, if_neg hc, if_neg (by simp [hhead])]
          simp
      · refine ⟨last, 0, by simp, ?_, by simp, Or.inl (by simp)⟩
        rw [scan_number_loop, if_neg hc, if_neg (by simp [hceq])]
        simp

/-- scan_string reports an unterminated string when no closing quote
remains. -/
theorem scan_string_unterminated (s : SourceIterator) (e : Entry)
    (hq : '"' ∉ s.chars) :
    scan_string s e = some (.error "Unterminated String") := by
  simp only [scan_string, SourceIterator.scan_until]
  rw [scan_until_aux_not_found s.source '"' s.chars s.pos s.line s.column hq]

/-- On a well-formed ASCII iterator whose pending character is numeric,
scan_number succeeds (the sliced lexeme is digits or digits-dot-digits
and parses). -/
theorem scan_number_ascii (s : SourceIterator) (e : Entry)
    (hg : GoodIter s)
    (hH : s.source.drop e.position = e.value :: s.chars)
    (hpe : e.position + 1 = s.pos)
    (hnum : char_is_numeric e.value = true) :
    ∃ tok s₂, scan_number s e = some (tok, s₂) := by
  obtain ⟨hascii, hinv⟩ := hg
  have hmem : e.value ∈ s.source := by
    have h0 : e.value ∈ s.source.drop e.position := by
      rw [hH]; exact List.mem_cons_self _ _
    exact List.drop_subset _ _ h0
  have hd : e.value.isDigit = true := ascii_numeric_isDigit (hascii _ hmem) hnum
  have hcharsascii : ∀ c ∈ s.chars, c.toNat < 128 := by
    intro c hcm
    apply hascii
    apply List.drop_subset e.position
    rw [hH]
    exact List.mem_cons_of_mem _ hcm
  have hlen : s.source.length - e.position = s.chars.length + 1 := by
    have h0 := congrArg List.length hH
    simpa using h0
  have hposle : e.position < s.source.length := by
    by_contra hcon
    push_neg at hcon
    rw [List.drop_eq_nil_of_le hcon] at hH
    cases hH
  obtain ⟨last', k, hk, h1, h2, h3⟩ :=
    scan_number_loop_false_spec s.source s.chars s.pos s.line s.column e hcharsascii
  have hrpos : last'.position = e.position + k := by
    by_cases hk0 : k = 0 <;> simp [hk0] at h2 <;> omega
  have hsub : substring s.source e.position (e.position + k) =
      some ((s.source.drop e.position).take (e.position + k + 1 - e.position)) :=
    substring_ascii s.source e.position (e.position + k) hascii (by omega) (by omega)
  have htake : e.position + k + 1 - e.position = k + 1 := by omega
  rw [htake] at hsub
  have hlex : (s.source.drop e.position).take (k + 1) = e.value :: s.chars.take k := by
    rw [hH, List.take_succ_cons]
  rw [hlex] at hsub
  have hparse : ∃ q, rustParseF64 (e.value :: s.chars.take k) = some q := by
    rcases h3 with h3 | ⟨l₁, l₂, heq, ha1, ha2, hne⟩
    · exact rustParseF64_digits e.value hd (s.chars.take k) h3
    · rw [heq]
      exact rustParseF64_digits_dot e.value hd l₁ l₂ ha1 ha2 hne
  obtain ⟨q, hq⟩ := hparse
  refine ⟨Token.new (.Number q) e.line e.column,
    ⟨s.source, s.chars.drop k, s.pos + k, s.line, s.column + k⟩, ?_⟩
  simp only [scan_number]
  rw [h1]
  dsimp only
  rw [hrpos, hsub]
  dsimp only
  rw [hq]

/-- On a well-formed ASCII iterator, scan_identifier always succeeds
(the slice is in bounds). -/
theorem scan_identifier_ascii (s : SourceIterator) (e : Entry)
    (hg : GoodIter s)
    (hH : s.source.drop e.position = e.value :: s.chars)
    (hpe : e.position + 1 = s.pos) :
    ∃ tok s₂, scan_identifier s e = some (tok, s₂) := by
  obtain ⟨hascii, hinv⟩ := hg
  have hlen : s.source.length - e.position = s.chars.length + 1 := by
    have h0 := congrArg List.length hH
    simpa using h0
  have hposle : e.position < s.source.length := by
    by_contra hcon
    push_neg at hcon
    rw [List.drop_eq_nil_of_le hcon] at hH
    cases hH
  have hkle : (s.chars.takeWhile char_is_alphanumeric).length ≤ s.chars.length :=
    List.IsPrefix.length_le (List.takeWhile_prefix char_is_alphanumeric)
  obtain ⟨last', h1, h2⟩ :=
    scan_identifier_loop_spec s.source s.chars s.pos s.line s.column e
  have hrpos : last'.position =
      e.position + (s.chars.takeWhile char_is_alphanumeric).length := by
    by_cases hk0 : (s.chars.takeWhile char_is_alphanumeric).length = 0 <;>
      simp [hk0] at h2 <;> omega
  refine ⟨Token.new (keyword_or_identifier ((s.source.drop e.position).take
      (e.position + (s.chars.takeWhile char_is_alphanumeric).length + 1 - e.position)))
      e.line e.column,
    ⟨s.source, s.chars.drop (s.chars.takeWhile char_is_alphanumeric).length,
      s.pos + (s.chars.takeWhile char_is_alphanumeric).length, s.line,
      s.column + (s.chars.takeWhile char_is_alphanumeric).length⟩, ?_⟩
  simp only [scan_identifier]
  rw [h1]
  dsimp only
  rw [hrpos]
  rw [substring_ascii s.source e.position
    (e.position + (s.chars.takeWhile char_is_alphanumeric).length) hascii
    (by omega) (by omega)]

/-- On a well-formed ASCII iterator with a closing quote ahead,
scan_string succeeds. -/
theorem scan_string_ascii (s : SourceIterator) (e : Entry)
    (hg : GoodIter s)
    (hpe : e.position + 1 = s.pos)
    (hq : '"' ∈ s.chars) :
    ∃ tok s₂, scan_string s e = some (.ok (tok, s₂)) := by
  obtain ⟨hascii, hinv⟩ := hg
  obtain ⟨j, en, hj, h1, hp⟩ :=
    scan_until_aux_found s.source '"' s.chars s.pos s.line s.column hq
  have hchlen : s.chars.length = s.source.length - s.pos := by
    rw [hinv]; simp
  have hposle : s.pos ≤ s.source.length := by
    by_contra hcon
    push_neg at hcon
    have h0 : s.chars = [] := by
      rw [hinv]
      exact List.drop_eq_nil_of_le (by omega)
    rw [h0] at hq
    cases hq
  simp only [scan_string, SourceIterator.scan_until]
  rw [h1]
  dsimp only
  rw [hp]
  rw [substring_ascii s.source (e.position + 1) (s.pos + j - 1) hascii
    (by omega) (by omega)]
  exact ⟨_, _, rfl⟩

/-- On an all-ASCII source satisfying the iterator invariant, the scan
loop always reaches `.done`: no panic, no fuel exhaustion. -/
theorem scan_loop_ascii_done :
    ∀ (fuel : Nat) (it : SourceIterator) (tokens : List Token) (diags : List String),
      GoodIter it → it.chars.length < fuel →
      ∃ toks ds, scan_loop fuel it tokens diags = .done toks ds := by
  intro fuel
  induction fuel with
  | zero => intro it tokens diags _ h; omega
  | succ n ih =>
    intro it tokens diags hg hlen
    rw [scan_loop]
    cases hnext : it.next with
    | none => exact ⟨_, _, rfl⟩
    | some es =>
      obtain ⟨e, s₁⟩ := es
      have hlen₁ : s₁.chars.length + 1 = it.chars.length := next_some_length it e s₁ hnext
      obtain ⟨hcons, hepos, hpos₁, hsrc₁⟩ := next_spec it e s₁ hnext
      have hg₁ : GoodIter s₁ := next_good it e s₁ hnext hg
      have hpe : e.position + 1 = s₁.pos := by omega
      have hH : s₁.source.drop e.position = e.value :: s₁.chars := by
        rw [hsrc₁, hepos, ← hg.2]
        exact hcons.symm
      dsimp only
      repeat' split
      all_goals first
        | exact ⟨_, _, rfl⟩
        | (apply ih _ _ _ hg₁; omega)
        | (apply ih _ _ _ (next_match_good s₁ '=' hg₁)
           have := next_match_length s₁ '='
           omega)
        | (apply ih _ _ _ (next_match_good s₁ '/' hg₁)
           have := next_match_length s₁ '/'
           omega)
        | (apply ih _ _ _
             (scan_until_good (s₁.next_match '/').2 '\n' (next_match_good s₁ '/' hg₁))
           have h₁ := next_match_length s₁ '/'
           have h₂ := scan_until_length (s₁.next_match '/').2 '\n'
           omega)
        | (rename_i tok s₂ hh
           first
             | (have hlen₂ := scan_string_length s₁ e tok s₂ hh
                apply ih _ _ _ (scan_string_inv s₁ e tok s₂ hh hg₁)
                omega)
             | (have hlen₂ := scan_number_length s₁ e tok s₂ hh
                apply ih _ _ _ (scan_number_inv s₁ e tok s₂ hh hg₁)
                omega)
             | (have hlen₂ := scan_identifier_length s₁ e tok s₂ hh
                apply ih _ _ _ (scan_identifier_inv s₁ e tok s₂ hh hg₁)
                omega))
        | (rename_i hh
           by_cases hq : '"' ∈ s₁.chars
           · obtain ⟨tok, s₂, hok⟩ := scan_string_ascii s₁ e hg₁ hpe hq
             rw [hok] at hh
             cases hh
           · rw [scan_string_unterminated s₁ e hq] at hh
             cases hh)
        | (rename_i hh
           obtain ⟨tok, s₂, hok⟩ := scan_identifier_ascii s₁ e hg₁ hH hpe
           rw [hok] at hh
           cases hh)
        | (rename_i hnum x hh
           guard_hyp hnum : char_is_numeric e.value = true
           obtain ⟨tok, s₂, hok⟩ := scan_number_ascii s₁ e hg₁ hH hpe hnum
           rw [hok] at hh
           cases hh)

/-- On an unrecognized character the scan loop stops at once with a
diagnostic, returning the tokens collected so far. -/
theorem scan_loop_unrecognized (fuel : Nat) (it : SourceIterator)
    (tokens : List Token) (diags : List String) (e : Entry) (s₁ : SourceIterator)
    (hnext : it.next = some (e, s₁)) (hrec : recognized e.value = false) :
    scan_loop (fuel + 1) it tokens diags =
      .done tokens (diags ++
        ["Error!: Unrecognized Character '" ++ String.singleton e.value ++ "'"]) := by
  simp only [recognized, Bool.or_eq_false_iff, decide_eq_false_iff_not] at hrec
  simp only [List.mem_cons, List.not_mem_nil, or_false, not_or] at hrec
  rw [scan_loop, hnext]
  dsimp only
  repeat' split
  all_goals simp_all

/-- On a string head with no closing quote ahead, the scan loop stops
with the unterminated-string diagnostic, returning the tokens so far. -/
theorem scan_loop_unterminated (fuel : Nat) (it : SourceIterator)
    (tokens : List Token) (diags : List String) (e : Entry) (s₁ : SourceIterator)
    (hnext : it.next = some (e, s₁)) (hv : e.value = '"') (hq : '"' ∉ s₁.chars) :
    scan_loop (fuel + 1) it tokens diags =
      .done tokens (diags ++ ["Error!: Unterminated String"]) := by
  have hstr := scan_string_unterminated s₁ e hq
  rw [scan_loop, hnext]
  dsimp only
  repeat' split
  all_goals simp_all

end Scanner

/-- Claim C4: the scanner, modelled as the pure function `scan`, is
deterministic; on any all-ASCII source it returns the token vector and
diagnostics (no panic, no fuel exhaustion); on an unrecognized ASCII
character it emits a diagnostic and stops tokenising, returning the
tokens scanned so far; and on an unterminated string it does the same
with the unterminated-string diagnostic.  The unrecognized-character
conjunct is restricted to ASCII characters because the modelled
`char_is_numeric`/`char_is_alphanumeric` agree with Rust's
`char::is_numeric`/`char::is_alphanumeric` exactly there: a non-ASCII
letter or numeral is alphanumeric to the real scanner, which then
panics in the byte slice of scan_identifier/scan_number instead of
stopping cleanly - that is the refuted never-panics part, witnessed by
the counterexample. -/
theorem claim_C4 :
    (∀ code : String, (∀ c ∈ code.toList, c.toNat < 128) →
        ∃ tokens diags, Scanner.scan code = .done tokens diags) ∧
    (∀ (fuel : Nat) (it : Scanner.SourceIterator) (tokens : List Scanner.Token)
        (diags : List String) (e : Scanner.Entry) (s₁ : Scanner.SourceIterator),
        it.next = some (e, s₁) → e.value.toNat < 128 → recognized e.value = false →
        Scanner.scan_loop (fuel + 1) it tokens diags =
          .done tokens (diags ++
            ["Error!: Unrecognized Character '" ++ String.singleton e.value ++ "'"])) ∧
    (∀ (fuel : Nat) (it : Scanner.SourceIterator) (tokens : List Scanner.Token)
        (diags : List String) (e : Scanner.Entry) (s₁ : Scanner.SourceIterator),
        it.next = some (e, s₁) → e.value = '"' → '"' ∉ s₁.chars →
        Scanner.scan_loop (fuel + 1) it tokens diags =
          .done tokens (diags ++ ["Error!: Unterminated String"])) := by
  refine ⟨?_, ?_, ?_⟩
  · intro code hascii
    exact Scanner.scan_loop_ascii_done (code.toList.length + 1)
      (Scanner.SourceIterator.new code.toList) [] [] ⟨hascii, rfl⟩
      (by simp [Scanner.SourceIterator.new])
  · intro fuel it tokens diags e s₁ hnext _hasc hrec
    exact Scanner.scan_loop_unrecognized fuel it tokens diags e s₁ hnext hrec
  · intro fuel it tokens diags e s₁ hnext hv hq
    exact Scanner.scan_loop_unterminated fuel it tokens diags e s₁ hnext hv hq

/-- C4 counterexample to the never-panics part: on the one-character
non-ASCII source `¾` (a Unicode numeral, so `char::is_numeric` accepts
it) scan_number slices the source at byte index 1, inside the two-byte
character, and the Rust slice panics; the model returns `.panicked`
rather than a token vector. -/
theorem claim_C4_counterexample : Scanner.scan "¾" = .panicked := by
  with_unfolding_all rfl

/-- C4 witness: the ASCII-totality branch of claim_C4 at a concrete
program, and the unrecognized-character branch at the ASCII character
`@`, every hypothesis discharged by computation. -/
theorem claim_C4_witness :
    (∃ tokens diags, Scanner.scan "print 1.5 + foo;" = .done tokens diags) ∧
    Scanner.scan_loop (0 + 1) (Scanner.SourceIterator.new "@".toList) [] [] =
      .done [] ([] ++ ["Error!: Unrecognized Character '" ++ String.singleton '@' ++ "'"]) :=
  ⟨claim_C4.1 "print 1.5 + foo;" (by decide),
   claim_C4.2.1 0 (Scanner.SourceIterator.new "@".toList) [] []
     ⟨'@', 0, 0, 0⟩ ⟨"@".toList, [], 1, 0, 1⟩
     (by with_unfolding_all rfl) (by decide) (by decide)⟩


end Lox
